import Mathlib

/-!
# Verification of the gitma_canspin export pipeline

This file gives a shallow embedding of the token-table export and TEI
reconstruction code in `gitma_canspin/_export_annotations.py` (functions
`create_basic_token_tsv`, `create_annotated_token_tsv`,
`create_annotated_tei` with its helpers `_fix_punctuation` and
`_paragraph_recognition`) and of the text-window slicing used by
`create_basic_token_tsv` and `CanspinProject.test_text_borders`, and
proves or refutes the frozen specification claims about them.

Conventions of the embedding:
* pandas data frames become lists of structures, one structure per row;
* character offsets are `Int` (pandas integer columns);
* Python exceptions (IndexError on `.iloc[0]` of an empty frame,
  AttributeError on `None`, KeyError on a missing dict key) become `none`
  of an `Option` result;
* the persisted tsv token text is a `String`; the Python substring test
  `'\\n' in token` (the two-character escape sequence backslash + n)
  becomes `containsLB`.
-/

namespace GitmaCanspin

/-- One row of the basic token tsv (`Token_ID`, `Text_Pointer`, `Token`),
as produced by `create_basic_token_tsv` and read back by
`create_annotated_token_tsv`. -/
structure TokRow where
  tokenId : Nat
  textPointer : Int
  token : String
deriving DecidableEq, Repr

/-- One text-selection segment of a CATMA target item
(`item['selector']['start']`, `item['selector']['end']`).
`stop` embeds the Python key `'end'` (a Lean keyword). -/
structure Seg where
  start : Int
  stop : Int
deriving DecidableEq, Repr

/-- One entry of `ac.annotations` as used by `create_annotated_token_tsv`:
its raw CATMA id string `data['id']`, its tag name (the `tag` column of
`ac.df`), and the selector segments of `data['target']['items']`. -/
structure Ann where
  dataId : String
  tag : String
  segs : List Seg
deriving DecidableEq, Repr

/-- One row of `ac_data_df` as consumed by the matching loops of
`create_annotated_token_tsv` (after the optional explode step): the
`start_point` and `end_point` columns, the `tag` column, and the data
frame index (`row.name`), which indexes into `annotation_list`. -/
structure AnnRow where
  start_point : Int
  end_point : Int
  tag : String
  annIdx : Nat
deriving DecidableEq, Repr

/-- One row of the annotated token tsv written by
`create_annotated_token_tsv` (columns `Token_ID`, `Text_Pointer`,
`Token`, `Tag`, `Annotation_ID`, `Multi_Token_Annotation`; the last
column is field `mtaCount`). -/
structure OutRow where
  tokenId : Nat
  textPointer : Int
  token : String
  tag : String
  annId : String
  mtaCount : Nat
deriving DecidableEq, Repr

/-- Substring test for the two-character line-break marker backslash + n
on a list of characters; embeds Python `'\\n' in token`. -/
def hasLB : List Char → Bool
  | '\\' :: 'n' :: _ => true
  | _ :: rest => hasLB rest
  | [] => false

/-- Python `'\\n' in token` on the token string. -/
def containsLB (tok : String) : Bool := hasLB tok.data

/-- The value added to a token's `Text_Pointer` before comparing it with
segment offsets: `text_borders[0] if text_borders else 0`. -/
def off_of : Option (Int × Int) → Int
  | some tb => tb.1
  | none => 0

/-- Python `str.split(sep)` for a one-character separator, on the
character list of the string: splitting an empty string yields one empty
part, every separator occurrence starts a new part. -/
def splitOnChar (sep : Char) : List Char → List (List Char)
  | [] => [[]]
  | c :: rest =>
    let r := splitOnChar sep rest
    if c = sep then [] :: r
    else
      match r with
      | h :: t => (c :: h) :: t
      | [] => [[c]]

/-- Embeds `annotation.data['id'].split('/')[-1].split('_')[-1]`
(line 219 of `_export_annotations.py`): the suffix of the CATMA
annotation id used as the `Annotation_ID` column value.  Python
`str.split` never returns an empty list, so `[-1]` is the last element;
`getLastD` is total with an irrelevant default. -/
def ann_id_of (a : Ann) : String :=
  ⟨(splitOnChar '_' ((splitOnChar '/' a.dataId.data).getLastD [])).getLastD []⟩

/-- Embeds lines 169-182 of `_export_annotations.py`
(`use_all_text_selection_segments = True`): each annotation's
`start_point`/`end_point` cells are replaced by the per-item selector
lists and the frame is exploded into one row per segment; `explode`
keeps the original frame index, so each exploded row's `annIdx` is the
annotation's position in `annotation_list`. -/
def explode_ac_rows (anns : List Ann) : List AnnRow :=
  (anns.enum.map (fun p =>
    p.2.segs.map (fun s => AnnRow.mk s.start s.stop p.2.tag p.1))).flatten

/-- Embeds the first matching loop of `create_annotated_token_tsv`
(lines 184-202): the IOB2 tag of one basic-table row.
`filtered_row_df_beginning` keeps the rows with
`start_point == Text_Pointer + offset`, `filtered_row_df_inner` the rows
with `start_point < Text_Pointer + offset < end_point`; both filters
carry the scalar conjunct `'\\n' not in Token`, so a line-break token
empties both.  The tag is `B-`/`I-` plus the first filtered row's tag
(`.tag[0]` after `reset_index`), else `O`. -/
def tagForToken (acRows : List AnnRow) (off : Int) (ptr : Int) (tok : String) : String :=
  match acRows.filter
      (fun r => decide (r.start_point = ptr + off) && !containsLB tok) with
  | r :: _ => "B-" ++ r.tag
  | [] =>
    match acRows.filter
        (fun r => decide (r.start_point < ptr + off) &&
                  decide (r.end_point > ptr + off) && !containsLB tok) with
    | r :: _ => "I-" ++ r.tag
    | [] => "O"

/-- Embeds lines 214-219 of `_export_annotations.py`: the `Annotation_ID`
computed for a non-`O`, non-line-break row.  `filtered_row_df` keeps the
rows with `start_point - offset <= Text_Pointer < end_point - offset`;
`iloc[0]` of an empty frame raises IndexError (`none` here), otherwise
`annotation_list[row.name]` is looked up (IndexError again if out of
range) and its id suffix extracted. -/
def annIdForToken (acRows : List AnnRow) (anns : List Ann) (off : Int)
    (ptr : Int) : Option String :=
  match acRows.filter (fun r =>
      decide (r.start_point - off ≤ ptr) && decide (r.end_point - off > ptr)) with
  | [] => none
  | r :: _ => (anns[r.annIdx]?).map ann_id_of

/-- Embeds one iteration of the second loop of
`create_annotated_token_tsv` (lines 209-228).  The accumulator is the
pair of the Python lists `annotation_ids` and `multi_token_annotation`;
the input is one tsv row together with its `Tag` column value.  An `O`
or line-break row appends `'none'` and `0`; otherwise the annotation id
is resolved, every earlier list entry with the same id is incremented by
one, and the new entry is the number of earlier matches plus one. -/
def annStep (acRows : List AnnRow) (anns : List Ann) (off : Int)
    (acc : List String × List Nat) (p : TokRow × String) :
    Option (List String × List Nat) :=
  if p.2 == "O" || containsLB p.1.token then
    some (acc.1 ++ ["none"], acc.2 ++ [0])
  else
    match annIdForToken acRows anns off p.1.textPointer with
    | none => none
    | some aid =>
      let found := ((acc.1.enum).filter (fun q => q.2 == aid)).map (fun q => q.1)
      let amount := found.length
      let mtas := (acc.2.enum).map
        (fun q => if found.contains q.1 then q.2 + 1 else q.2)
      some (acc.1 ++ [aid], mtas ++ [amount + 1])

/-- The second loop of `create_annotated_token_tsv`, iterated over all
rows (each row paired with its `Tag` value). -/
def annLoop (acRows : List AnnRow) (anns : List Ann) (off : Int) :
    List (TokRow × String) → (List String × List Nat) →
    Option (List String × List Nat)
  | [], acc => some acc
  | p :: rest, acc =>
    match annStep acRows anns off acc p with
    | none => none
    | some acc' => annLoop acRows anns off rest acc'

/-- Assembles the output tsv rows from the input rows and the three
computed columns (`Tag`, `Annotation_ID`, `Multi_Token_Annotation`);
pandas aligns the new columns with the frame by position. -/
def buildRows : List TokRow → List String → List String → List Nat → List OutRow
  | t :: ts, g :: gs, i :: is, m :: ms =>
    ⟨t.tokenId, t.textPointer, t.token, g, i, m⟩ :: buildRows ts gs is ms
  | _, _, _, _ => []

/-- Embeds `create_annotated_token_tsv` (lines 150-237 of
`_export_annotations.py`) from the point where `ac_data_df` rows
(`acRows`), `annotation_list` (`anns`) and the basic token table
(`inRows`) are in memory: the first loop computes the `Tag` column, the
second the `Annotation_ID` and `Multi_Token_Annotation` columns; `none`
embeds the IndexError raised when a non-`O` row has no covering
segment. -/
def create_annotated_token_tsv (acRows : List AnnRow) (anns : List Ann)
    (tb : Option (Int × Int)) (inRows : List TokRow) : Option (List OutRow) :=
  let off := off_of tb
  let tags := inRows.map (fun r => tagForToken acRows off r.textPointer r.token)
  match annLoop acRows anns off (inRows.zip tags) ([], []) with
  | none => none
  | some (ids, mtas) => some (buildRows inRows tags ids mtas)

/-- `create_annotated_token_tsv` with
`use_all_text_selection_segments = True` (the mode the claims and the
repository's own test pipeline use): `ac_data_df` is first exploded into
one row per text-selection segment. -/
def create_annotated_token_tsv_allsegs (anns : List Ann)
    (tb : Option (Int × Int)) (inRows : List TokRow) : Option (List OutRow) :=
  create_annotated_token_tsv (explode_ac_rows anns) anns tb inRows

example :
    create_annotated_token_tsv_allsegs [⟨"cat/a_1", "X", [⟨0, 10⟩]⟩] none
      [⟨0, 0, "aa"⟩, ⟨1, 3, "bb"⟩] =
    some [⟨0, 0, "aa", "B-X", "1", 2⟩, ⟨1, 3, "bb", "I-X", "1", 2⟩] := by decide

example :
    create_annotated_token_tsv_allsegs
      [⟨"x/a_1", "X", [⟨5, 10⟩]⟩, ⟨"x/a_2", "Y", [⟨7, 9⟩]⟩] none
      [⟨0, 7, "tt"⟩] =
    some [⟨0, 7, "tt", "B-Y", "1", 1⟩] := by decide

example :
    create_annotated_token_tsv_allsegs [⟨"x/a_1", "X", [⟨3, 3⟩]⟩] none
      [⟨0, 3, "tt"⟩] = none := by decide

example :
    create_annotated_token_tsv_allsegs [] none [⟨0, 3, "tt"⟩] =
    some [⟨0, 3, "tt", "O", "none", 0⟩] := by decide

example :
    create_annotated_token_tsv_allsegs [⟨"x/a_1", "X", [⟨0, 9⟩]⟩] none
      [⟨0, 2, "\\n"⟩] = some [⟨0, 2, "\\n", "O", "none", 0⟩] := by decide

/-! ## Token table writing and reading (`create_basic_token_tsv`) -/

/-- Embeds `x.replace('\n', '\\n')` (line 142 of
`_export_annotations.py`, comment "keep linebreaks for tsv export") on
the character list: the pattern is the single newline character, so the
replacement is per character. -/
def escapeLB : List Char → List Char
  | [] => []
  | c :: rest =>
    if c = '\n' then '\\' :: 'n' :: escapeLB rest else c :: escapeLB rest

/-- The token-text escaping applied by `create_basic_token_tsv` before
`to_csv`. -/
def escape_token (s : String) : String := ⟨escapeLB s.data⟩

/-- Embeds the write side of the basic token table: the `Token` column
is escaped, the rows are persisted field by field (pandas `to_csv`
quotes any remaining separator/quote characters, and `read_csv` undoes
the quoting, so the quoting layer itself is value-preserving). -/
def write_basic_table (rows : List TokRow) : List TokRow :=
  rows.map (fun t => { t with token := escape_token t.token })

/-- One recovered `Token` cell of `pd.read_csv`: a string cell of an
object-dtype column, a cell of a column that was type-coerced to a
non-string dtype (integer, float or boolean — only the fact that it is
not recovered as the written string matters to the claims, so the
written literal is kept), or a missing value. -/
inductive PdCell where
  | str (v : String)
  | coerced (v : String)
  | nan
deriving DecidableEq, Repr

/-- One row of the basic token table as recovered by `pd.read_csv`: the
two integer columns are written from integers and read back as integers,
so they are recovered exactly; the `Token` cell is a `PdCell`. -/
structure PdRow where
  tokenId : Nat
  textPointer : Int
  token : PdCell
deriving DecidableEq, Repr

/-- The default NA sentinel strings of `pandas.read_csv`
(`STR_NA_VALUES`): a field equal to one of these is read as NaN, not as
the written string. -/
def pd_na_values : List String :=
  ["", "#N/A", "#N/A N/A", "#NA", "-1.#IND", "-1.#QNAN", "-NaN", "-nan",
   "1.#IND", "1.#QNAN", "<NA>", "N/A", "NA", "NULL", "NaN", "None", "n/a",
   "nan", "null"]

/-- Embeds the read side (`pd.read_csv` in `create_annotated_token_tsv`
line 165) on the basic token table.  The NA-sentinel conversion is
modelled exactly (`pd_na_values`); the per-column dtype-inference ladder
of the parser (try integer, float, boolean over the non-NA cells, else
keep the column as strings) is abstracted as the parameter `coerce` on
the column's cell list — the claims only use properties of it that hold
for pandas, such as: a column containing a backslash cell is never
coerced, since no numeric or boolean literal and no NA sentinel contains
a backslash. -/
def read_basic_table (coerce : List String → Bool) (rows : List TokRow) :
    List PdRow :=
  if coerce (rows.map (fun t => t.token)) then
    rows.map (fun t => PdRow.mk t.tokenId t.textPointer
      (if pd_na_values.contains t.token then PdCell.nan
       else PdCell.coerced t.token))
  else
    rows.map (fun t => PdRow.mk t.tokenId t.textPointer
      (if pd_na_values.contains t.token then PdCell.nan
       else PdCell.str t.token))

/-! ## Text-window selection (`create_basic_token_tsv` line 135,
`CanspinProject.test_text_borders`) -/

/-- Normalization of one Python slice bound for a sequence of length
`len`: a negative value counts from the end (`len + i`, floored at 0), a
non-negative value is capped at `len`. -/
def normIdx (len : Nat) (i : Int) : Nat :=
  if i < 0 then ((len : Int) + i).toNat else min i.toNat len

/-- Python `text[a:b]`, as used in
`ac.text.plain_text[text_borders[0]:text_borders[1]]`. -/
def pySlice (text : List Char) (a b : Int) : List Char :=
  (text.drop (normIdx text.length a)).take
    (normIdx text.length b - normIdx text.length a)

/-- The text-window step of `create_basic_token_tsv` /
`test_text_borders`: `text[tb[0]:tb[1]] if text_borders else text`. -/
def text_borders_cut (text : List Char) (tb : Option (Int × Int)) : List Char :=
  match tb with
  | some p => pySlice text p.1 p.2
  | none => text

/-- Modelled from the spec: one slice bound "silently clamped to
`[0, length]`" — a negative value behaves like 0, a value above the
length like the length. -/
def clampIdx_spec (len : Nat) (i : Int) : Nat := min (max i 0).toNat len

/-- Modelled from the spec: the sub-range obtained "after silently
clamping both bounds into `[0, L]`". -/
def clampSlice_spec (text : List Char) (a b : Int) : List Char :=
  (text.drop (clampIdx_spec text.length a)).take
    (clampIdx_spec text.length b - clampIdx_spec text.length a)

/-! ## Markup serialization tail (`_fix_punctuation`,
`create_annotated_tei` lines 376-381) -/

/-- The ordered correction table of `_fix_punctuation` (lines 293-303).
The Python patterns are regular expressions, but every one of them only
escapes metacharacters, so each is a literal find string. -/
def corrections : List (String × String) :=
  [(" .", "."), (" ,", ","), (" :", ":"), (" ;", ";"), ("» ", "»"),
   (" «", "«"), (" ?", "?"), (" !", "!"), (" </p>", "</p>")]

/-- Embeds `_fix_punctuation`: the corrections are applied to the whole
string, in table order, each replacing every occurrence
(`re.sub` replaces all non-overlapping matches left to right, as does
`String.replace` for literal patterns). -/
def fix_punctuation (xml_string : String) : String :=
  corrections.foldl (fun s c => s.replace c.1 c.2) xml_string

/-- Embeds lines 376-381 of `create_annotated_tei`: the file content is
the pretty-printed serialization of the tree with `_fix_punctuation`
applied once. -/
def tei_output_of_rendered (tree_string : String) : String :=
  fix_punctuation tree_string

/-! ## TEI body construction (`create_annotated_tei` lines 338-374) -/

/-- Python `str.startswith` (kernel-reducible form). -/
def strStartsWith (s pre : String) : Bool := pre.data.isPrefixOf s.data

/-- Embeds `_paragraph_recognition` (lines 310-330): the token is looked
up against the pattern selected by `text_class`; the `patterns` dict has
the single key `'eltec-deu'`, whose condition is
`('\\n' in token) and (len(token) < 10)`; any other key raises KeyError
(`none`). -/
def paragraph_recognition (token : String) (text_class : String) : Option Bool :=
  if text_class = "eltec-deu" then
    some (containsLB token && decide (token.length < 10))
  else none

/-- A `CS1`-namespaced span element of the TEI body: element name (the
tag class), the `annotation` attribute value, accumulated `text` and
`tail` (lxml semantics: both start out as `None`). -/
structure SpanEl where
  name : String
  annId : String
  text : Option String
  tail : Option String
deriving DecidableEq, Repr

/-- A `p` element of the TEI body: its direct text and its child span
elements in document order. -/
structure Para where
  ptext : Option String
  spans : List SpanEl
deriving DecidableEq, Repr

/-- The mutable state of the body-building loop of
`create_annotated_tei`: the `body` element's paragraph children
(`_paragraph_list`), the body's direct text and span children (used when
`insert_paragraphs` is false), whether `_last_sibling_element` is
currently set (when it is, it is the last span of the current
container), and the row indices at which a new paragraph was opened. -/
structure TeiState where
  paras : List Para
  bodyText : Option String
  bodySpans : List SpanEl
  lastSib : Bool
  pStarts : List Nat
deriving DecidableEq, Repr

/-- Embeds `x = new if x is None else x + new`, the accumulation pattern
used for every `text`/`tail` assignment in `create_annotated_tei`. -/
def appendOpt (o : Option String) (s : String) : String :=
  match o with
  | none => s
  | some t => t ++ s

/-- Replaces the last element of a list through a fallible update;
fails on an empty list (Python `list[-1]` IndexError / mutation of a
missing element). -/
def modifyLastM {α : Type} (f : α → Option α) : List α → Option (List α)
  | [] => none
  | [a] => (f a).map (fun x => [x])
  | a :: b :: rest => (modifyLastM f (b :: rest)).map (fun l => a :: l)

/-- Total update of the last element; fails only on an empty list. -/
def modifyLast {α : Type} (f : α → α) (l : List α) : Option (List α) :=
  modifyLastM (fun a => some (f a)) l

/-- Mutation of the element currently bound to `_last_sibling_element`:
the last span of the last paragraph (with `insert_paragraphs`) or of the
body (without). -/
def mutateLastSib (insertP : Bool) (f : SpanEl → SpanEl) (st : TeiState) :
    Option TeiState :=
  if insertP then
    (modifyLastM (fun p => (modifyLast f p.spans).map
        (fun sp => { p with spans := sp })) st.paras).map
      (fun ps => { st with paras := ps })
  else
    (modifyLast f st.bodySpans).map (fun bs => { st with bodySpans := bs })

/-- Embeds `etree.SubElement(_paragraph_list[-1] if insert_paragraphs
else body_el, ...)` followed by binding `_last_sibling_element` to the
new span. -/
def appendSpan (insertP : Bool) (sp : SpanEl) (st : TeiState) : Option TeiState :=
  if insertP then
    (modifyLastM (fun p => some { p with spans := p.spans ++ [sp] })
        st.paras).map (fun ps => { st with paras := ps, lastSib := true })
  else
    some { st with bodySpans := st.bodySpans ++ [sp], lastSib := true }

/-- Embeds the lookahead
`tsv_data_df.iloc[idx + 1]['Tag'].startswith('I-')`, false at the last
row (`idx == len - 1`). -/
def nextIsI : Option String → Bool
  | some t => strStartsWith t "I-"
  | none => false

/-- The paragraph-opening action of the body-building loop
(`_paragraph_list.insert(idx, etree.SubElement(body_el, TEI + 'p'))` —
`list.insert` at a position at or past the end appends — followed by
`_last_sibling_element = None`); the opened row index is recorded. -/
def stOpenPara (idx : Nat) (st : TeiState) : TeiState :=
  { st with paras := st.paras ++ [⟨none, []⟩], lastSib := false,
            pStarts := st.pStarts ++ [idx] }

/-- The per-row content phase of the body-building loop of
`create_annotated_tei` (lines 343-374): a line-break row is skipped
(`continue`), a `B-` row opens a new span, any other non-`O` row extends
`_last_sibling_element` (an AttributeError — `none` — if it is unset),
and an `O` row extends the last sibling's tail or the enclosing
container's text. -/
def teiContent (insertP : Bool) (row : OutRow) (nextTag : Option String)
    (st : TeiState) : Option TeiState :=
  if containsLB row.token then some st
  else if row.tag != "O" then
    if strStartsWith row.tag "B-" then
      match appendSpan insertP ⟨row.tag.drop 2, row.annId, none, none⟩ st with
      | none => none
      | some st1 =>
        if nextIsI nextTag then
          mutateLastSib insertP
            (fun s => { s with text := some (appendOpt s.text (row.token ++ " ")) }) st1
        else
          mutateLastSib insertP
            (fun s => { s with text := some (appendOpt s.text row.token),
                               tail := some (appendOpt s.tail " ") }) st1
    else
      if st.lastSib then
        if nextIsI nextTag then
          mutateLastSib insertP
            (fun s => { s with text := some (appendOpt s.text (row.token ++ " ")) }) st
        else
          mutateLastSib insertP
            (fun s => { s with text := some (appendOpt s.text row.token),
                               tail := some (appendOpt s.tail " ") }) st
      else none
  else
    if st.lastSib then
      mutateLastSib insertP
        (fun s => { s with tail := some (appendOpt s.tail (row.token ++ " ")) }) st
    else
      if insertP then
        (modifyLastM (fun p =>
            some { p with ptext := some (appendOpt p.ptext (row.token ++ " ")) })
          st.paras).map (fun ps => { st with paras := ps })
      else
        some { st with bodyText := some (appendOpt st.bodyText (row.token ++ " ")) }

/-- One iteration of the body-building loop of `create_annotated_tei`
(lines 338-374) on the row at index `idx`: the paragraph phase runs
first (`insert_paragraphs` and `idx == 0 or _paragraph_recognition(...)`
— Python `or` short-circuits, so the predicate is only consulted for
`idx > 0`), then the content phase. -/
def teiStep (insertP : Bool) (textClass : String) (idx : Nat) (row : OutRow)
    (nextTag : Option String) (st : TeiState) : Option TeiState :=
  let newPara : Option Bool :=
    if insertP then
      if idx == 0 then some true else paragraph_recognition row.token textClass
    else some false
  match newPara with
  | none => none
  | some b => teiContent insertP row nextTag (if b then stOpenPara idx st else st)

/-- The body-building loop over the remaining rows, starting at row
index `idx`; the lookahead passed to each step is the following row's
`Tag`. -/
def teiRun (insertP : Bool) (textClass : String) :
    List OutRow → Nat → TeiState → Option TeiState
  | [], _, st => some st
  | r :: rest, idx, st =>
    match teiStep insertP textClass idx r ((rest.head?).map (fun x => x.tag)) st with
    | none => none
    | some st' => teiRun insertP textClass rest (idx + 1) st'

/-- Embeds the body-building part of `create_annotated_tei` on the rows
of the annotated token table: the traversal starts with an empty body
and no open paragraph or span. -/
def create_annotated_tei (insertP : Bool) (textClass : String)
    (rows : List OutRow) : Option TeiState :=
  teiRun insertP textClass rows 0 ⟨[], none, [], false, []⟩

example :
    create_annotated_tei true "eltec-deu"
      [⟨0, 0, "Ein", "O", "none", 0⟩, ⟨1, 4, "Wort", "B-X", "1", 1⟩,
       ⟨2, 9, "\\n", "O", "none", 0⟩, ⟨3, 10, "mehr", "I-X", "1", 2⟩] =
    none := by decide

example :
    create_annotated_tei true "eltec-deu"
      [⟨0, 0, "Ein", "O", "none", 0⟩, ⟨1, 4, "Wort", "B-X", "1", 1⟩,
       ⟨2, 9, "mehr", "I-X", "1", 2⟩] =
    some ⟨[⟨some "Ein ", [⟨"X", "1", some "Wort mehr", some " "⟩]⟩],
          none, [], true, [0]⟩ := by decide

/-- Invariant of the `annotation_ids` / `multi_token_annotation`
accumulator pair: entries are in lockstep, `'none'` entries count 0, and
every other entry equals the current number of occurrences of its id. -/
def IdsInv (ids : List String) (mtas : List Nat) : Prop :=
  ids.length = mtas.length ∧
  ∀ p ∈ ids.zip mtas,
    (p.1 = "none" → p.2 = 0) ∧ (p.1 ≠ "none" → p.2 = ids.count p.1)

/-- Invariant maintained by the body-building loop with
`insert_paragraphs`: some paragraph is open, and when
`_last_sibling_element` is set it is the last span of the open
paragraph, which therefore has at least one span. -/
def TeiInvP (st : TeiState) : Prop :=
  st.paras ≠ [] ∧
  (st.lastSib = true → ∃ ps p, st.paras = ps ++ [p] ∧ p.spans ≠ [])

/-- The reset of the open-span accumulator at a paragraph boundary
(first row, or short line-break token). -/
def resetAtBoundary (opn : Bool) (idx : Nat) (tok : String) : Bool :=
  if (idx == 0) || (containsLB tok && decide (tok.length < 10)) then false
  else opn

/-- Modelled from the claim: the scan deciding whether, within each
paragraph (the accumulator is reset at each paragraph boundary), every
`I`-style row — non-`O`, not `B-`-prefixed, not a line break — is
preceded by some `B-` row of the same paragraph. -/
def spansOk : Bool → Nat → List OutRow → Bool
  | _, _, [] => true
  | opn, idx, r :: rest =>
    if containsLB r.token then
      spansOk (resetAtBoundary opn idx r.token) (idx + 1) rest
    else if r.tag != "O" then
      if strStartsWith r.tag "B-" then spansOk true (idx + 1) rest
      else resetAtBoundary opn idx r.token &&
        spansOk (resetAtBoundary opn idx r.token) (idx + 1) rest
    else spansOk (resetAtBoundary opn idx r.token) (idx + 1) rest

/-- Whether the content phase succeeds on one row, given the open-span
flag after the paragraph phase. -/
def stepOkB (r : OutRow) (opn : Bool) : Bool :=
  if containsLB r.token then true
  else if r.tag != "O" then
    (if strStartsWith r.tag "B-" then true else opn)
  else true

/-- The open-span flag after the content phase of one row. -/
def stepSib (r : OutRow) (opn : Bool) : Bool :=
  if containsLB r.token then opn
  else if r.tag != "O" then
    (if strStartsWith r.tag "B-" then true else opn)
  else opn

/-! ## Lemmas on the newline escaping (claim C4) -/

theorem escapeLB_of_not_mem (l : List Char) (h : '\n' ∉ l) : escapeLB l = l := by
  induction l with
  | nil => rfl
  | cons c rest ih =>
    have hc : c ≠ '\n' := fun hc => h (hc ▸ List.mem_cons_self c rest)
    have hr : '\n' ∉ rest := fun hr => h (List.mem_cons_of_mem c hr)
    simp [escapeLB, hc, ih hr]

theorem escapeLB_ne_of_mem (l : List Char) (h : '\n' ∈ l) : escapeLB l ≠ l := by
  induction l with
  | nil => cases h
  | cons c rest ih =>
    by_cases hc : c = '\n'
    · subst hc
      simp only [escapeLB, if_pos rfl]
      intro he
      simp [List.cons.injEq] at he
    · have hr : '\n' ∈ rest := by
        rcases List.mem_cons.mp h with h1 | h1
        · exact absurd h1.symm hc
        · exact h1
      simp only [escapeLB, if_neg hc]
      intro he
      exact ih hr (List.cons_injective.eq_iff.mp he) |>.elim

theorem escapeLB_mem_backslash (l : List Char) (h : '\n' ∈ l) :
    '\\' ∈ escapeLB l := by
  induction l with
  | nil => cases h
  | cons c rest ih =>
    by_cases hc : c = '\n'
    · subst hc
      simp [escapeLB]
    · rcases List.mem_cons.mp h with h1 | h1
      · exact absurd h1.symm hc
      · simp only [escapeLB, if_neg hc]
        exact List.mem_cons_of_mem _ (ih h1)

/-! ## Lemmas on Python slicing (claim C9) -/

theorem normIdx_of_nonneg (len : Nat) (i : Int) (h : 0 ≤ i) :
    normIdx len i = clampIdx_spec len i := by
  unfold normIdx clampIdx_spec
  rw [if_neg (by omega), max_eq_left h]

/-! ## Lemmas on the IOB2 tag of one row (claims C3, C5, C6) -/

theorem tagFor_of_lb (acRows : List AnnRow) (off ptr : Int) (tok : String)
    (h : containsLB tok = true) : tagForToken acRows off ptr tok = "O" := by
  simp [tagForToken, h]

theorem tagFor_cases (acRows : List AnnRow) (off ptr : Int) (tok : String)
    (hlb : containsLB tok = false) :
    (∃ s ∈ acRows, s.start_point = ptr + off ∧
        tagForToken acRows off ptr tok = "B-" ++ s.tag) ∨
    ((∀ s ∈ acRows, s.start_point ≠ ptr + off) ∧
      ∃ s ∈ acRows, s.start_point < ptr + off ∧ ptr + off < s.end_point ∧
        tagForToken acRows off ptr tok = "I-" ++ s.tag) ∨
    ((∀ s ∈ acRows, s.start_point ≠ ptr + off) ∧
     (∀ s ∈ acRows, ¬(s.start_point < ptr + off ∧ ptr + off < s.end_point)) ∧
     tagForToken acRows off ptr tok = "O") := by
  unfold tagForToken
  cases hB : acRows.filter
      (fun r => decide (r.start_point = ptr + off) && !containsLB tok) with
  | cons r rs =>
    left
    have hr : r ∈ acRows.filter
        (fun r => decide (r.start_point = ptr + off) && !containsLB tok) := by
      rw [hB]; exact List.mem_cons_self r rs
    have h2 := List.mem_filter.mp hr
    refine ⟨r, h2.1, ?_, rfl⟩
    have := h2.2
    simp only [Bool.and_eq_true, decide_eq_true_eq] at this
    exact this.1
  | nil =>
    have hBe : ∀ s ∈ acRows, s.start_point ≠ ptr + off := by
      intro s hs
      have := List.filter_eq_nil_iff.mp hB s hs
      simp only [Bool.and_eq_true, decide_eq_true_eq, hlb, Bool.not_false,
        and_true, not_true_eq_false] at this
      · exact this
    cases hI : acRows.filter
        (fun r => decide (r.start_point < ptr + off) &&
                  decide (r.end_point > ptr + off) && !containsLB tok) with
    | cons r rs =>
      right; left
      have hr : r ∈ acRows.filter
          (fun r => decide (r.start_point < ptr + off) &&
                    decide (r.end_point > ptr + off) && !containsLB tok) := by
        rw [hI]; exact List.mem_cons_self r rs
      have h2 := List.mem_filter.mp hr
      have h3 := h2.2
      simp only [Bool.and_eq_true, decide_eq_true_eq] at h3
      exact ⟨hBe, r, h2.1, h3.1.1, h3.1.2, rfl⟩
    | nil =>
      right; right
      refine ⟨hBe, ?_, rfl⟩
      intro s hs hcon
      have := List.filter_eq_nil_iff.mp hI s hs
      simp only [Bool.and_eq_true, decide_eq_true_eq, hlb, Bool.not_false,
        and_true, not_and, not_lt] at this
      · exact absurd hcon.2 (by exact not_lt.mpr (this hcon.1))

/-! ## Lemmas on the second matching loop (claims C1, C2, C3, C6) -/

/-- Indices collected from `enumerate` at or past position `k` are at
least `k`, so a smaller index is never among them. -/
theorem found_lb (aid : String) (k j : Nat) (l : List String) (hj : j < k) :
    (((List.enumFrom k l).filter (fun q => q.2 == aid)).map Prod.fst).contains j
      = false := by
  rw [Bool.eq_false_iff]
  intro hc
  rcases List.mem_map.mp (List.elem_iff.mp hc) with ⟨q, hqf, hq1⟩
  have := List.le_fst_of_mem_enumFrom (List.mem_of_mem_filter hqf)
  omega

/-- `found_token_indices` has as many entries as there are occurrences
of the id in `annotation_ids`. -/
theorem found_length (aid : String) (k : Nat) (l : List String) :
    (((List.enumFrom k l).filter (fun q => q.2 == aid)).map Prod.fst).length
      = l.count aid := by
  induction l generalizing k with
  | nil => rfl
  | cons x xs ih =>
    by_cases hx : (x == aid) = true
    · simp [List.filter_cons, hx, ih (k + 1), List.count_cons]
    · simp [List.filter_cons, hx, ih (k + 1), List.count_cons,
        Bool.eq_false_iff.mpr hx]

/-- The increment of all earlier tokens of the same id, rewritten as a
positional update of the id/count pairs. -/
theorem update_eq_zip_map (aid : String) :
    ∀ (n : Nat) (ids : List String) (mtas : List Nat),
    ids.length = mtas.length →
    (List.enumFrom n mtas).map (fun q =>
        if (((List.enumFrom n ids).filter
              (fun q' => q'.2 == aid)).map Prod.fst).contains q.1
        then q.2 + 1 else q.2) =
    (ids.zip mtas).map (fun p => if p.1 == aid then p.2 + 1 else p.2) := by
  intro n ids
  induction ids generalizing n with
  | nil =>
    intro mtas hlen
    cases mtas with
    | nil => rfl
    | cons m ms => simp at hlen
  | cons i is ih =>
    intro mtas hlen
    cases mtas with
    | nil => simp at hlen
    | cons m ms =>
      have hlen' : is.length = ms.length := by simpa using hlen
      show ((n, m) :: List.enumFrom (n + 1) ms).map _ =
        ((i, m) :: is.zip ms).map _
      by_cases hi : (i == aid) = true
      · have hfc : (List.enumFrom n (i :: is)).filter (fun q' => q'.2 == aid) =
            (n, i) :: (List.enumFrom (n + 1) is).filter (fun q' => q'.2 == aid) := by
          simp [List.filter_cons, hi]
        rw [List.map_cons, List.map_cons, hfc]
        congr 1
        · simp [hi]
        · rw [← ih (n + 1) ms hlen']
          apply List.map_congr_left
          intro q hq
          have hge := List.le_fst_of_mem_enumFrom hq
          have hne : ¬(q.1 = n) := by omega
          simp [List.contains_cons, hne]
      · have hfc : (List.enumFrom n (i :: is)).filter (fun q' => q'.2 == aid) =
            (List.enumFrom (n + 1) is).filter (fun q' => q'.2 == aid) := by
          simp [List.filter_cons, hi]
        rw [List.map_cons, List.map_cons, hfc]
        congr 1
        · have hnm : (n, aid) ∉ List.enumFrom (n + 1) is := by
            intro hmem
            have := List.le_fst_of_mem_enumFrom hmem
            omega
          simp [hi, hnm]
        · exact ih (n + 1) ms hlen'

theorem zip_self_map {α β : Type} (l : List α) (f : α → β) :
    l.zip (l.map f) = l.map (fun x => (x, f x)) := by
  induction l with
  | nil => rfl
  | cons x xs ih => simp [ih]

theorem zip_fst_map_pairs (ids : List String) (f : String × Nat → Nat) :
    ∀ (mtas : List Nat), ids.length = mtas.length →
    ids.zip ((ids.zip mtas).map f) = (ids.zip mtas).map (fun p => (p.1, f p)) := by
  induction ids with
  | nil => intro mtas _; rfl
  | cons i is ih =>
    intro mtas hlen
    cases mtas with
    | nil => simp at hlen
    | cons m ms =>
      have hlen' : is.length = ms.length := by simpa using hlen
      simp [List.zip_cons_cons, ih ms hlen']

/-- A successfully resolved `Annotation_ID` is the id suffix of some
annotation of the collection. -/
theorem annIdForToken_mem (acRows : List AnnRow) (anns : List Ann) (off ptr : Int)
    (a : String) (h : annIdForToken acRows anns off ptr = some a) :
    ∃ x ∈ anns, a = ann_id_of x := by
  unfold annIdForToken at h
  cases hf : acRows.filter (fun r =>
      decide (r.start_point - off ≤ ptr) && decide (r.end_point - off > ptr)) with
  | nil => rw [hf] at h; cases h
  | cons r rs =>
    rw [hf] at h
    rcases Option.map_eq_some'.mp h with ⟨x, hx, hxa⟩
    exact ⟨x, List.getElem?_mem hx, hxa.symm⟩

theorem annStep_O (acRows : List AnnRow) (anns : List Ann) (off : Int)
    (acc : List String × List Nat) (p : TokRow × String)
    (h : (p.2 == "O" || containsLB p.1.token) = true) :
    annStep acRows anns off acc p = some (acc.1 ++ ["none"], acc.2 ++ [0]) := by
  simp [annStep, h]

theorem annStep_match (acRows : List AnnRow) (anns : List Ann) (off : Int)
    (acc : List String × List Nat) (p : TokRow × String) (aid : String)
    (hO : (p.2 == "O" || containsLB p.1.token) = false)
    (ha : annIdForToken acRows anns off p.1.textPointer = some aid) :
    annStep acRows anns off acc p = some
      (acc.1 ++ [aid],
       ((acc.2.enum).map (fun q =>
          if (((acc.1.enum).filter (fun q' => q'.2 == aid)).map Prod.fst).contains q.1
          then q.2 + 1 else q.2)) ++
       [(((acc.1.enum).filter (fun q' => q'.2 == aid)).map Prod.fst).length + 1]) := by
  simp [annStep, hO, ha]

theorem annStep_fail (acRows : List AnnRow) (anns : List Ann) (off : Int)
    (acc : List String × List Nat) (p : TokRow × String)
    (hO : (p.2 == "O" || containsLB p.1.token) = false)
    (ha : annIdForToken acRows anns off p.1.textPointer = none) :
    annStep acRows anns off acc p = none := by
  simp [annStep, hO, ha]

theorem annStep_inv (acRows : List AnnRow) (anns : List Ann) (off : Int)
    (hids : ∀ x ∈ anns, ann_id_of x ≠ "none")
    (acc acc' : List String × List Nat) (p : TokRow × String)
    (hInv : IdsInv acc.1 acc.2)
    (h : annStep acRows anns off acc p = some acc') :
    IdsInv acc'.1 acc'.2 := by
  obtain ⟨hlen, hmem⟩ := hInv
  cases hO : (p.2 == "O" || containsLB p.1.token) with
  | true =>
    rw [annStep_O acRows anns off acc p hO] at h
    injection h with h
    subst h
    constructor
    · simp [hlen]
    · intro q hq
      rw [List.zip_append hlen] at hq
      rcases List.mem_append.mp hq with hq1 | hq1
      · have hP := hmem q hq1
        refine ⟨hP.1, fun hne => ?_⟩
        rw [List.count_append]
        have hz : List.count q.1 ["none"] = 0 := by
          simp [List.count_singleton']
          exact Ne.symm hne
        rw [hz, hP.2 hne]
        omega
      · simp only [List.zip_cons_cons, List.zip_nil_right, List.mem_singleton] at hq1
        subst hq1
        exact ⟨fun _ => rfl, fun hne => absurd rfl hne⟩
  | false =>
    cases ha : annIdForToken acRows anns off p.1.textPointer with
    | none => rw [annStep_fail acRows anns off acc p hO ha] at h; cases h
    | some aid =>
      rw [annStep_match acRows anns off acc p aid hO ha] at h
      injection h with h
      subst h
      have haid : aid ≠ "none" := by
        rcases annIdForToken_mem acRows anns off p.1.textPointer aid ha with ⟨x, hx, hxa⟩
        rw [hxa]
        exact hids x hx
      have hupd : (acc.2.enum).map (fun q =>
          if (((acc.1.enum).filter (fun q' => q'.2 == aid)).map Prod.fst).contains q.1
          then q.2 + 1 else q.2) =
          (acc.1.zip acc.2).map (fun q => if q.1 == aid then q.2 + 1 else q.2) :=
        update_eq_zip_map aid 0 acc.1 acc.2 hlen
      have hcnt : (((acc.1.enum).filter (fun q' => q'.2 == aid)).map Prod.fst).length
          = acc.1.count aid := found_length aid 0 acc.1
      constructor
      · simp [hupd, hlen]
      · intro q hq
        simp only [hupd, hcnt] at hq
        have hlen2 : acc.1.length =
            ((acc.1.zip acc.2).map (fun q => if q.1 == aid then q.2 + 1 else q.2)).length := by
          simp [hlen]
        rw [List.zip_append hlen2] at hq
        rcases List.mem_append.mp hq with hq1 | hq1
        · rw [zip_fst_map_pairs acc.1 _ acc.2 hlen] at hq1
          rcases List.mem_map.mp hq1 with ⟨p0, hp0, hq0⟩
          subst hq0
          have hP := hmem p0 hp0
          by_cases hpa : p0.1 = aid
          · have hbe : (p0.1 == aid) = true := by simp [hpa]
            constructor
            · intro h1
              exact absurd (h1 ▸ hpa) (Ne.symm haid)
            · intro hne
              simp only [hbe, if_true]
              rw [hP.2 hne, List.count_append, List.count_singleton']
              rw [hpa]
              simp
          · have hbe : (p0.1 == aid) = false := beq_eq_false_iff_ne.mpr hpa
            simp only [hbe, Bool.false_eq_true, if_false]
            refine ⟨hP.1, fun hne => ?_⟩
            rw [hP.2 hne, List.count_append, List.count_singleton']
            rw [if_neg (Ne.symm hpa)]
            omega
        · simp only [List.zip_cons_cons, List.zip_nil_right, List.mem_singleton] at hq1
          subst hq1
          refine ⟨fun h1 => absurd h1 haid, fun _ => ?_⟩
          rw [List.count_append, List.count_singleton']
          simp

theorem annStep_lengths (acRows : List AnnRow) (anns : List Ann) (off : Int)
    (acc acc' : List String × List Nat) (p : TokRow × String)
    (h : annStep acRows anns off acc p = some acc') :
    acc'.1.length = acc.1.length + 1 ∧ acc'.2.length = acc.2.length + 1 := by
  cases hO : (p.2 == "O" || containsLB p.1.token) with
  | true =>
    rw [annStep_O acRows anns off acc p hO] at h
    injection h with h
    subst h
    simp
  | false =>
    cases ha : annIdForToken acRows anns off p.1.textPointer with
    | none => rw [annStep_fail acRows anns off acc p hO ha] at h; cases h
    | some aid =>
      rw [annStep_match acRows anns off acc p aid hO ha] at h
      injection h with h
      subst h
      simp

theorem annStep_char (acRows : List AnnRow) (anns : List Ann) (off : Int)
    (acc acc' : List String × List Nat) (p : TokRow × String)
    (h : annStep acRows anns off acc p = some acc') :
    ∃ a, acc'.1 = acc.1 ++ [a] ∧
      (((p.2 == "O" || containsLB p.1.token) = true → a = "none") ∧
       ((p.2 == "O" || containsLB p.1.token) = false →
          annIdForToken acRows anns off p.1.textPointer = some a)) := by
  cases hO : (p.2 == "O" || containsLB p.1.token) with
  | true =>
    rw [annStep_O acRows anns off acc p hO] at h
    injection h with h
    subst h
    exact ⟨"none", rfl, fun _ => rfl, fun hc => by simp at hc⟩
  | false =>
    cases ha : annIdForToken acRows anns off p.1.textPointer with
    | none => rw [annStep_fail acRows anns off acc p hO ha] at h; cases h
    | some aid =>
      rw [annStep_match acRows anns off acc p aid hO ha] at h
      injection h with h
      subst h
      exact ⟨aid, rfl, fun hc => by simp at hc, fun _ => rfl⟩

theorem annLoop_inv (acRows : List AnnRow) (anns : List Ann) (off : Int)
    (hids : ∀ x ∈ anns, ann_id_of x ≠ "none") :
    ∀ (rows : List (TokRow × String)) (acc fin : List String × List Nat),
    IdsInv acc.1 acc.2 → annLoop acRows anns off rows acc = some fin →
    IdsInv fin.1 fin.2 := by
  intro rows
  induction rows with
  | nil =>
    intro acc fin hInv h
    injection h with h
    exact h ▸ hInv
  | cons p rest ih =>
    intro acc fin hInv h
    unfold annLoop at h
    cases hs : annStep acRows anns off acc p with
    | none => rw [hs] at h; cases h
    | some acc' =>
      rw [hs] at h
      exact ih acc' fin (annStep_inv acRows anns off hids acc acc' p hInv hs) h

theorem annLoop_lengths (acRows : List AnnRow) (anns : List Ann) (off : Int) :
    ∀ (rows : List (TokRow × String)) (acc fin : List String × List Nat),
    annLoop acRows anns off rows acc = some fin →
    fin.1.length = acc.1.length + rows.length ∧
    fin.2.length = acc.2.length + rows.length := by
  intro rows
  induction rows with
  | nil =>
    intro acc fin h
    injection h with h
    subst h
    simp
  | cons p rest ih =>
    intro acc fin h
    unfold annLoop at h
    cases hs : annStep acRows anns off acc p with
    | none => rw [hs] at h; cases h
    | some acc' =>
      rw [hs] at h
      have h1 := annStep_lengths acRows anns off acc acc' p hs
      have h2 := ih acc' fin h
      constructor
      · rw [h2.1, h1.1]; simp; omega
      · rw [h2.2, h1.2]; simp; omega

theorem annLoop_char (acRows : List AnnRow) (anns : List Ann) (off : Int) :
    ∀ (rows : List (TokRow × String)) (acc fin : List String × List Nat),
    annLoop acRows anns off rows acc = some fin →
    ∃ suff, fin.1 = acc.1 ++ suff ∧
      List.Forall₂ (fun (p : TokRow × String) (a : String) =>
        ((p.2 == "O" || containsLB p.1.token) = true → a = "none") ∧
        ((p.2 == "O" || containsLB p.1.token) = false →
          annIdForToken acRows anns off p.1.textPointer = some a)) rows suff := by
  intro rows
  induction rows with
  | nil =>
    intro acc fin h
    injection h with h
    subst h
    exact ⟨[], by simp, List.Forall₂.nil⟩
  | cons p rest ih =>
    intro acc fin h
    unfold annLoop at h
    cases hs : annStep acRows anns off acc p with
    | none => rw [hs] at h; cases h
    | some acc' =>
      rw [hs] at h
      rcases annStep_char acRows anns off acc acc' p hs with ⟨a, ha1, ha2⟩
      rcases ih acc' fin h with ⟨suff, hs1, hs2⟩
      refine ⟨a :: suff, ?_, List.Forall₂.cons ha2 hs2⟩
      rw [hs1, ha1, List.append_assoc]
      rfl

/-! ## Lemmas on column assembly (`buildRows`) -/

theorem buildRows_forall2 (f : TokRow → String) (R : TokRow → String → Prop) :
    ∀ (ts : List TokRow) (is : List String) (ms : List Nat),
    List.Forall₂ R ts is → is.length = ms.length →
    List.Forall₂ (fun (t : TokRow) (r : OutRow) =>
        r.tokenId = t.tokenId ∧ r.textPointer = t.textPointer ∧
        r.token = t.token ∧ r.tag = f t ∧ R t r.annId)
      ts (buildRows ts (ts.map f) is ms) := by
  intro ts is ms h
  induction h generalizing ms with
  | nil =>
    intro _
    exact List.Forall₂.nil
  | @cons t a ts' is' hta hrest ih =>
    intro hlen
    cases ms with
    | nil => simp at hlen
    | cons m ms' =>
      have hlen' : is'.length = ms'.length := by simpa using hlen
      exact List.Forall₂.cons ⟨rfl, rfl, rfl, rfl, hta⟩ (ih ms' hlen')

theorem buildRows_map_annId :
    ∀ (ts : List TokRow) (gs is : List String) (ms : List Nat),
    ts.length = gs.length → gs.length = is.length → is.length = ms.length →
    (buildRows ts gs is ms).map (fun r => r.annId) = is := by
  intro ts
  induction ts with
  | nil =>
    intro gs is ms h1 h2 h3
    cases gs with
    | nil =>
      cases is with
      | nil => rfl
      | cons _ _ => simp at h2
    | cons _ _ => simp at h1
  | cons t ts' ih =>
    intro gs is ms h1 h2 h3
    cases gs with
    | nil => simp at h1
    | cons g gs' =>
      cases is with
      | nil => simp at h2
      | cons i is' =>
        cases ms with
        | nil => simp at h3
        | cons m ms' =>
          simp only [buildRows, List.map_cons]
          rw [ih gs' is' ms' (by simpa using h1) (by simpa using h2)
            (by simpa using h3)]

theorem buildRows_map_pair :
    ∀ (ts : List TokRow) (gs is : List String) (ms : List Nat),
    ts.length = gs.length → gs.length = is.length → is.length = ms.length →
    (buildRows ts gs is ms).map (fun r => (r.annId, r.mtaCount)) = is.zip ms := by
  intro ts
  induction ts with
  | nil =>
    intro gs is ms h1 h2 h3
    cases gs with
    | nil =>
      cases is with
      | nil => rfl
      | cons _ _ => simp at h2
    | cons _ _ => simp at h1
  | cons t ts' ih =>
    intro gs is ms h1 h2 h3
    cases gs with
    | nil => simp at h1
    | cons g gs' =>
      cases is with
      | nil => simp at h2
      | cons i is' =>
        cases ms with
        | nil => simp at h3
        | cons m ms' =>
          simp only [buildRows, List.map_cons, List.zip_cons_cons]
          rw [ih gs' is' ms' (by simpa using h1) (by simpa using h2)
            (by simpa using h3)]

/-! ## Master characterizations of `create_annotated_token_tsv` -/

theorem pipeline_destruct (acRows : List AnnRow) (anns : List Ann)
    (tb : Option (Int × Int)) (inRows : List TokRow) (out : List OutRow)
    (hp : create_annotated_token_tsv acRows anns tb inRows = some out) :
    ∃ ids mtas,
      annLoop acRows anns (off_of tb)
        (inRows.zip (inRows.map
          (fun r => tagForToken acRows (off_of tb) r.textPointer r.token)))
        ([], []) = some (ids, mtas) ∧
      out = buildRows inRows
        (inRows.map (fun r => tagForToken acRows (off_of tb) r.textPointer r.token))
        ids mtas := by
  simp only [create_annotated_token_tsv] at hp
  cases hl : annLoop acRows anns (off_of tb)
      (inRows.zip (inRows.map
        (fun r => tagForToken acRows (off_of tb) r.textPointer r.token)))
      ([], []) with
  | none => rw [hl] at hp; cases hp
  | some pr =>
    rw [hl] at hp
    cases pr with
    | mk ids mtas =>
      injection hp with hp
      exact ⟨ids, mtas, rfl, hp.symm⟩

theorem pipeline_char (acRows : List AnnRow) (anns : List Ann)
    (tb : Option (Int × Int)) (inRows : List TokRow) (out : List OutRow)
    (hp : create_annotated_token_tsv acRows anns tb inRows = some out) :
    List.Forall₂ (fun (t : TokRow) (r : OutRow) =>
      r.tokenId = t.tokenId ∧ r.textPointer = t.textPointer ∧ r.token = t.token ∧
      r.tag = tagForToken acRows (off_of tb) t.textPointer t.token ∧
      (((tagForToken acRows (off_of tb) t.textPointer t.token == "O"
          || containsLB t.token) = true → r.annId = "none") ∧
       ((tagForToken acRows (off_of tb) t.textPointer t.token == "O"
          || containsLB t.token) = false →
         annIdForToken acRows anns (off_of tb) t.textPointer = some r.annId)))
      inRows out := by
  rcases pipeline_destruct acRows anns tb inRows out hp with ⟨ids, mtas, hl, hout⟩
  rcases annLoop_char acRows anns (off_of tb) _ _ _ hl with ⟨suff, hsuff, hchar⟩
  have hids_eq : ids = suff := by simpa using hsuff
  subst hids_eq
  rw [zip_self_map] at hchar
  rw [List.forall₂_map_left_iff] at hchar
  have hlens := annLoop_lengths acRows anns (off_of tb) _ _ _ hl
  have hlen1 : ids.length = mtas.length := by
    have h1 := hlens.1
    have h2 := hlens.2
    simp at h1 h2
    omega
  rw [hout]
  exact buildRows_forall2 _ _ inRows ids mtas hchar hlen1

theorem pipeline_mta (acRows : List AnnRow) (anns : List Ann)
    (tb : Option (Int × Int)) (inRows : List TokRow) (out : List OutRow)
    (hids : ∀ x ∈ anns, ann_id_of x ≠ "none")
    (hp : create_annotated_token_tsv acRows anns tb inRows = some out) :
    ∀ r ∈ out, (r.annId = "none" → r.mtaCount = 0) ∧
      (r.annId ≠ "none" →
        r.mtaCount = (out.map (fun x => x.annId)).count r.annId) := by
  rcases pipeline_destruct acRows anns tb inRows out hp with ⟨ids, mtas, hl, hout⟩
  have hinv : IdsInv ids mtas := by
    have h0 : IdsInv ([] : List String) ([] : List Nat) :=
      ⟨rfl, fun p hp => by cases hp⟩
    exact annLoop_inv acRows anns (off_of tb) hids _ ([], []) (ids, mtas) h0 hl
  have hlens := annLoop_lengths acRows anns (off_of tb) _ _ _ hl
  have hlen1 : inRows.length = ids.length := by
    have h1 := hlens.1
    simp at h1
    omega
  have hmapAnn : out.map (fun r => r.annId) = ids := by
    rw [hout]
    exact buildRows_map_annId inRows _ ids mtas (by simp) (by simpa using hlen1)
      hinv.1
  have hmapPair : out.map (fun r => (r.annId, r.mtaCount)) = ids.zip mtas := by
    rw [hout]
    exact buildRows_map_pair inRows _ ids mtas (by simp) (by simpa using hlen1)
      hinv.1
  intro r hr
  have hmem : (r.annId, r.mtaCount) ∈ ids.zip mtas := by
    rw [← hmapPair]
    exact List.mem_map_of_mem _ hr
  have hP := hinv.2 _ hmem
  rw [hmapAnn]
  exact hP

theorem b_append_ne_O (x : String) : ("B-" ++ x) ≠ "O" := by
  intro h
  have h2 := congrArg String.length h
  rw [String.length_append] at h2
  have hB : "B-".length = 2 := rfl
  have hO : "O".length = 1 := rfl
  omega

theorem b_tag_beq_O_false (x : String) : (("B-" ++ x) == "O") = false :=
  beq_eq_false_iff_ne.mpr (b_append_ne_O x)

theorem map_eq_self_iff {α : Type} (f : α → α) :
    ∀ (l : List α), l.map f = l ↔ ∀ x ∈ l, f x = x := by
  intro l
  induction l with
  | nil => simp
  | cons x xs ih =>
    simp only [List.map_cons, List.cons.injEq, List.mem_cons]
    constructor
    · rintro ⟨h1, h2⟩ y hy
      rcases hy with rfl | hy
      · exact h1
      · exact (ih.mp h2) y hy
    · intro h
      exact ⟨h x (Or.inl rfl), ih.mpr (fun y hy => h y (Or.inr hy))⟩

/-! ## The claims -/

/-- Claim C1, counterexample: a single annotation realized by two
non-line-break tokens does not get the dense `Multi_Token_Annotation`
sequence `1, 2` — both its tokens are emitted with the value `2`, so the
first matched token does not carry `1`. -/
theorem claim_C1_counterexample :
    create_annotated_token_tsv_allsegs [⟨"cat/a_1", "X", [⟨0, 10⟩]⟩] none
        [⟨0, 0, "aa"⟩, ⟨1, 3, "bb"⟩] =
      some [⟨0, 0, "aa", "B-X", "1", 2⟩, ⟨1, 3, "bb", "I-X", "1", 2⟩] ∧
    (2 : Nat) ≠ 1 := by
  constructor
  · decide
  · decide

/-- Claim C1 as amended: whenever `create_annotated_token_tsv` succeeds
(and no annotation id suffix collides with the sentinel `'none'`), a row
whose `Annotation_ID` is `'none'` carries `Multi_Token_Annotation 0`,
and every other row carries the total number of emitted rows with the
same `Annotation_ID` (each positive) — the code back-patches all earlier
tokens of the annotation, so the column holds `n, n, ..., n` instead of
the claimed dense `1, ..., n`. -/
theorem claim_C1 (acRows : List AnnRow) (anns : List Ann)
    (tb : Option (Int × Int)) (inRows : List TokRow) (out : List OutRow)
    (hids : ∀ x ∈ anns, ann_id_of x ≠ "none")
    (hp : create_annotated_token_tsv acRows anns tb inRows = some out) :
    ∀ r ∈ out, (r.annId = "none" → r.mtaCount = 0) ∧
      (r.annId ≠ "none" →
        r.mtaCount = (out.map (fun x => x.annId)).count r.annId ∧
        0 < r.mtaCount) := by
  intro r hr
  have hP := pipeline_mta acRows anns tb inRows out hids hp r hr
  refine ⟨hP.1, fun hne => ⟨hP.2 hne, ?_⟩⟩
  rw [hP.2 hne]
  exact List.count_pos_iff.mpr (List.mem_map_of_mem _ hr)

theorem claim_C1_witness :
    (OutRow.mk 0 0 "aa" "B-X" "1" 2).mtaCount =
      ([OutRow.mk 0 0 "aa" "B-X" "1" 2, OutRow.mk 1 3 "bb" "I-X" "1" 2].map
        (fun x => x.annId)).count (OutRow.mk 0 0 "aa" "B-X" "1" 2).annId ∧
    0 < (OutRow.mk 0 0 "aa" "B-X" "1" 2).mtaCount :=
  (claim_C1 (explode_ac_rows [⟨"cat/a_1", "X", [⟨0, 10⟩]⟩])
    [⟨"cat/a_1", "X", [⟨0, 10⟩]⟩] none [⟨0, 0, "aa"⟩, ⟨1, 3, "bb"⟩]
    [OutRow.mk 0 0 "aa" "B-X" "1" 2, OutRow.mk 1 3 "bb" "I-X" "1" 2]
    (by decide) (by decide) (OutRow.mk 0 0 "aa" "B-X" "1" 2)
    (by decide)).2 (by decide)

/-- Claim C2, counterexample: with two annotations in stable input order
— `X` covering `[5, 10)` and `Y` starting at the token offset `7` — the
token's tag comes from `Y` (the first and only rule-1 match) but its
`Annotation_ID` is taken from `X`, the first annotation whose segment
merely covers the offset, so tag class and id do not come from the same
annotation. -/
theorem claim_C2_counterexample :
    create_annotated_token_tsv_allsegs
        [⟨"x/a_1", "X", [⟨5, 10⟩]⟩, ⟨"x/a_2", "Y", [⟨7, 9⟩]⟩] none
        [⟨0, 7, "tt"⟩] =
      some [⟨0, 7, "tt", "B-Y", "1", 1⟩] ∧
    ("1" : String) ≠ "2" := by
  constructor
  · decide
  · decide

/-- Claim C2 as amended: for a non-line-break token matched by rule 1,
the tag is `B-` plus the tag class of the *first* row of the
start-equality filter, while the `Annotation_ID` is the id suffix of the
annotation belonging to the *first* row of the coverage filter
(`start - off <= pointer < end - off`); the two filters can select
different annotations. -/
theorem claim_C2 (acRows : List AnnRow) (anns : List Ann)
    (tb : Option (Int × Int)) (inRows : List TokRow) (out : List OutRow)
    (hp : create_annotated_token_tsv acRows anns tb inRows = some out) :
    List.Forall₂ (fun (t : TokRow) (r : OutRow) =>
      containsLB t.token = false →
      ∀ s0 rest, acRows.filter
          (fun s => decide (s.start_point = t.textPointer + off_of tb)) =
          s0 :: rest →
        r.tag = "B-" ++ s0.tag ∧
        ∀ c0 rest', acRows.filter (fun s =>
            decide (s.start_point - off_of tb ≤ t.textPointer) &&
            decide (s.end_point - off_of tb > t.textPointer)) = c0 :: rest' →
          ∃ a, anns[c0.annIdx]? = some a ∧ r.annId = ann_id_of a)
      inRows out := by
  have hchar := pipeline_char acRows anns tb inRows out hp
  rw [List.forall₂_iff_zip] at hchar ⊢
  refine ⟨hchar.1, ?_⟩
  intro t r hmem hlb s0 rest hfeq
  obtain ⟨_, _, _, htag, hnone, hsome⟩ := hchar.2 hmem
  have hfeq' : acRows.filter (fun s =>
      decide (s.start_point = t.textPointer + off_of tb) && !containsLB t.token) =
      s0 :: rest := by
    rw [List.filter_congr (fun s _ => by rw [hlb, Bool.not_false, Bool.and_true])]
    exact hfeq
  have htagB : tagForToken acRows (off_of tb) t.textPointer t.token =
      "B-" ++ s0.tag := by
    unfold tagForToken
    rw [hfeq']
  have hOfalse : (tagForToken acRows (off_of tb) t.textPointer t.token == "O"
      || containsLB t.token) = false := by
    rw [htagB, hlb, b_tag_beq_O_false]
    rfl
  refine ⟨by rw [htag, htagB], ?_⟩
  intro c0 rest' hceq
  have hann := hsome hOfalse
  unfold annIdForToken at hann
  rw [hceq] at hann
  rcases Option.map_eq_some'.mp hann with ⟨a, ha, haa⟩
  exact ⟨a, ha, haa.symm⟩

theorem claim_C2_witness :
    (OutRow.mk 0 7 "tt" "B-Y" "1" 1).tag = "B-" ++ "Y" ∧
    (OutRow.mk 0 7 "tt" "B-Y" "1" 1).annId =
      ann_id_of (Ann.mk "x/a_1" "X" [⟨5, 10⟩]) := by
  have h := claim_C2
    (explode_ac_rows [⟨"x/a_1", "X", [⟨5, 10⟩]⟩, ⟨"x/a_2", "Y", [⟨7, 9⟩]⟩])
    [⟨"x/a_1", "X", [⟨5, 10⟩]⟩, ⟨"x/a_2", "Y", [⟨7, 9⟩]⟩] none
    [⟨0, 7, "tt"⟩] [⟨0, 7, "tt", "B-Y", "1", 1⟩] (by decide)
  rw [List.forall₂_iff_zip] at h
  have h2 := h.2
    (show ((⟨0, 7, "tt"⟩ : TokRow), (⟨0, 7, "tt", "B-Y", "1", 1⟩ : OutRow)) ∈
      [(⟨0, 7, "tt"⟩ : TokRow)].zip
        [(⟨0, 7, "tt", "B-Y", "1", 1⟩ : OutRow)] from by decide)
    (by decide) (AnnRow.mk 7 9 "Y" 1) [] (by decide)
  rcases h2.2 (AnnRow.mk 5 10 "X" 0) [AnnRow.mk 7 9 "Y" 1] (by decide) with
    ⟨a, ha1, ha2⟩
  have ha : a = Ann.mk "x/a_1" "X" [⟨5, 10⟩] := by
    injection ha1 with h3
    exact h3.symm
  exact ⟨h2.1, ha ▸ ha2⟩

/-- Claim C3: per-token tag assignment follows the three-rule
precedence for every non-line-break token — `B-` plus a matching
segment's tag class when some segment starts at the token's offset,
otherwise `I-` when some segment strictly contains the offset (a token
at a segment's `end` is excluded by the strict inequality), otherwise
`O` with `Annotation_ID 'none'` and `Multi_Token_Annotation 0`
(closed world). -/
theorem claim_C3 (acRows : List AnnRow) (anns : List Ann)
    (tb : Option (Int × Int)) (inRows : List TokRow) (out : List OutRow)
    (hids : ∀ x ∈ anns, ann_id_of x ≠ "none")
    (hp : create_annotated_token_tsv acRows anns tb inRows = some out) :
    List.Forall₂ (fun (t : TokRow) (r : OutRow) =>
      containsLB t.token = false →
      ((∃ s ∈ acRows, s.start_point = t.textPointer + off_of tb) →
        ∃ s ∈ acRows, s.start_point = t.textPointer + off_of tb ∧
          r.tag = "B-" ++ s.tag) ∧
      ((∀ s ∈ acRows, s.start_point ≠ t.textPointer + off_of tb) →
       (∃ s ∈ acRows, s.start_point < t.textPointer + off_of tb ∧
          t.textPointer + off_of tb < s.end_point) →
        ∃ s ∈ acRows, s.start_point < t.textPointer + off_of tb ∧
          t.textPointer + off_of tb < s.end_point ∧ r.tag = "I-" ++ s.tag) ∧
      ((∀ s ∈ acRows, s.start_point ≠ t.textPointer + off_of tb) →
       (∀ s ∈ acRows, ¬(s.start_point < t.textPointer + off_of tb ∧
          t.textPointer + off_of tb < s.end_point)) →
        r.tag = "O" ∧ r.annId = "none" ∧ r.mtaCount = 0))
      inRows out := by
  have hchar := pipeline_char acRows anns tb inRows out hp
  have hmta := pipeline_mta acRows anns tb inRows out hids hp
  rw [List.forall₂_iff_zip] at hchar ⊢
  refine ⟨hchar.1, ?_⟩
  intro t r hmem hlb
  obtain ⟨_, _, _, htag, hnone, _⟩ := hchar.2 hmem
  have hr : r ∈ out := (List.of_mem_zip hmem).2
  rcases tagFor_cases acRows (off_of tb) t.textPointer t.token hlb with hB | hI | hO
  · obtain ⟨s, hs, hseq, hstag⟩ := hB
    refine ⟨fun _ => ⟨s, hs, hseq, by rw [htag, hstag]⟩, ?_, ?_⟩
    · intro hall _
      exact absurd hseq (hall s hs)
    · intro hall _
      exact absurd hseq (hall s hs)
  · obtain ⟨hallB, s, hs, h1, h2, hstag⟩ := hI
    refine ⟨?_, fun _ _ => ⟨s, hs, h1, h2, by rw [htag, hstag]⟩, ?_⟩
    · intro hex
      obtain ⟨s', hs', hseq'⟩ := hex
      exact absurd hseq' (hallB s' hs')
    · intro _ hall2
      exact absurd ⟨h1, h2⟩ (hall2 s hs)
  · obtain ⟨hallB, hallI, hstag⟩ := hO
    refine ⟨?_, ?_, ?_⟩
    · intro hex
      obtain ⟨s', hs', hseq'⟩ := hex
      exact absurd hseq' (hallB s' hs')
    · intro _ hex
      obtain ⟨s', hs', h1', h2'⟩ := hex
      exact absurd ⟨h1', h2'⟩ (hallI s' hs')
    · intro _ _
      have htagO : r.tag = "O" := by rw [htag, hstag]
      have hcond : (tagForToken acRows (off_of tb) t.textPointer t.token == "O"
          || containsLB t.token) = true := by
        rw [hstag, hlb]
        rfl
      have hidn := hnone hcond
      exact ⟨htagO, hidn, (hmta r hr).1 hidn⟩

theorem claim_C3_witness :
    (OutRow.mk 3 8 "dd" "O" "none" 0).tag = "O" ∧
    (OutRow.mk 3 8 "dd" "O" "none" 0).annId = "none" ∧
    (OutRow.mk 3 8 "dd" "O" "none" 0).mtaCount = 0 := by
  have h := claim_C3 (explode_ac_rows [⟨"x/a_1", "X", [⟨4, 8⟩]⟩])
    [⟨"x/a_1", "X", [⟨4, 8⟩]⟩] none
    [⟨0, 0, "Aa"⟩, ⟨1, 4, "bb"⟩, ⟨2, 6, "cc"⟩, ⟨3, 8, "dd"⟩]
    [⟨0, 0, "Aa", "O", "none", 0⟩, ⟨1, 4, "bb", "B-X", "1", 2⟩,
     ⟨2, 6, "cc", "I-X", "1", 2⟩, ⟨3, 8, "dd", "O", "none", 0⟩]
    (by decide) (by decide)
  rw [List.forall₂_iff_zip] at h
  have h2 := h.2
    (show ((⟨3, 8, "dd"⟩ : TokRow), (⟨3, 8, "dd", "O", "none", 0⟩ : OutRow)) ∈
      ([(⟨0, 0, "Aa"⟩ : TokRow), ⟨1, 4, "bb"⟩, ⟨2, 6, "cc"⟩, ⟨3, 8, "dd"⟩].zip
        [(⟨0, 0, "Aa", "O", "none", 0⟩ : OutRow), ⟨1, 4, "bb", "B-X", "1", 2⟩,
         ⟨2, 6, "cc", "I-X", "1", 2⟩, ⟨3, 8, "dd", "O", "none", 0⟩])
      from by decide)
    (by decide)
  exact h2.2.2 (by decide) (by decide)

/-- Claim C4, counterexample.  For a token whose text is a newline, the
read-back of the written basic table yields the string backslash + n
instead of the newline (the column keeps object dtype — a backslash cell
is never coerced, so the coercion parameter is instantiated at the value
pandas takes on it); the escaping is not injective — a literal
backslash + n collides with an escaped newline — so it is not a
bijection that reading could invert; and even a newline-free token such
as `'None'` is not recovered, because the reader converts it to NaN (for
any coercion decision, since the cell is an NA sentinel). -/
theorem claim_C4_counterexample :
    read_basic_table (fun _ => false) (write_basic_table [⟨0, 0, "\n"⟩]) ≠
      [PdRow.mk 0 0 (PdCell.str "\n")] ∧
    escape_token "\n" = escape_token "\\n" ∧ ("\n" : String) ≠ "\\n" ∧
    read_basic_table (fun _ => false) (write_basic_table [⟨0, 0, "None"⟩]) =
      [PdRow.mk 0 0 PdCell.nan] ∧
    read_basic_table (fun _ => true) (write_basic_table [⟨0, 0, "None"⟩]) =
      [PdRow.mk 0 0 PdCell.nan] := by
  refine ⟨by decide, by decide, by decide, by decide, by decide⟩

/-- Claim C4 as amended: the round-trip law fails.  Whenever some token
text contains a newline, reading back the written basic table does not
yield the original rows, because the newline escaping applied on write
is never inverted by any reader in the pipeline (and is not injective);
reading back yields exactly the original token strings only under the
additional conditions that no token text is a pandas NA sentinel and
the token column is not dtype-coerced — so even newline-free tables
need not round-trip.  The coercion decision is abstract; the only
assumed property, true of pandas, is that a column containing a
backslash cell is never coerced. -/
theorem claim_C4 (coerce : List String → Bool)
    (hco : ∀ cells : List String, (∃ s ∈ cells, '\\' ∈ s.data) →
      coerce cells = false)
    (rows : List TokRow) :
    ((∃ t ∈ rows, '\n' ∈ t.token.data) →
      read_basic_table coerce (write_basic_table rows) ≠
        rows.map (fun t => PdRow.mk t.tokenId t.textPointer
          (PdCell.str t.token))) ∧
    ((∀ t ∈ rows, '\n' ∉ t.token.data) →
     (∀ t ∈ rows, pd_na_values.contains t.token = false) →
     coerce (rows.map (fun t => t.token)) = false →
      read_basic_table coerce (write_basic_table rows) =
        rows.map (fun t => PdRow.mk t.tokenId t.textPointer
          (PdCell.str t.token))) := by
  constructor
  · rintro ⟨t, ht, hnl⟩ heq
    have hbs : '\\' ∈ (escape_token t.token).data :=
      escapeLB_mem_backslash t.token.data hnl
    have hcells : escape_token t.token ∈
        (write_basic_table rows).map (fun r => r.token) := by
      unfold write_basic_table
      rw [List.map_map]
      exact List.mem_map_of_mem _ ht
    have hco2 : coerce ((write_basic_table rows).map (fun r => r.token)) =
        false := hco _ ⟨_, hcells, hbs⟩
    have hread : read_basic_table coerce (write_basic_table rows) =
        (write_basic_table rows).map (fun r => PdRow.mk r.tokenId r.textPointer
          (if pd_na_values.contains r.token then PdCell.nan
           else PdCell.str r.token)) := by
      unfold read_basic_table
      rw [if_neg (show ¬(coerce ((write_basic_table rows).map
          (fun t => t.token)) = true) from by rw [hco2]; simp)]
    rw [hread] at heq
    rcases List.mem_iff_get.mp ht with ⟨⟨i, hi⟩, hti⟩
    have h1 := congrArg (fun l => l[i]?) heq
    simp only [List.getElem?_map] at h1
    have h2 : rows[i]? = some t := by
      rw [List.getElem?_eq_getElem hi]
      rw [← hti]
      rfl
    unfold write_basic_table at h1
    simp only [List.getElem?_map, h2, Option.map_some'] at h1
    have h3 := h1
    by_cases hna : pd_na_values.contains (escape_token t.token) = true
    · rw [if_pos hna] at h3
      cases h3
    · rw [if_neg hna] at h3
      have h4 : escape_token t.token = t.token := by
        injection h3 with h5
        injection h5 with ha hb hc
        injection hc with hd
      have h6 : escapeLB t.token.data = t.token.data :=
        congrArg String.data h4
      exact escapeLB_ne_of_mem t.token.data hnl h6
  · intro hnl hna hcf
    have hwid : write_basic_table rows = rows := by
      unfold write_basic_table
      rw [map_eq_self_iff]
      intro t ht
      cases t with
      | mk a b c =>
        have h2 : escapeLB c.data = c.data :=
          escapeLB_of_not_mem c.data (hnl ⟨a, b, c⟩ ht)
        show TokRow.mk a b (escape_token c) = TokRow.mk a b c
        rw [show escape_token c = c from by unfold escape_token; rw [h2]]
    rw [hwid]
    unfold read_basic_table
    rw [if_neg (show ¬(coerce (rows.map (fun t => t.token)) = true) from by
      rw [hcf]; simp)]
    apply List.map_congr_left
    intro t ht
    rw [if_neg (show ¬(pd_na_values.contains t.token = true) from by
      rw [hna t ht]; simp)]

theorem claim_C4_witness :
    read_basic_table (fun _ => false) (write_basic_table [⟨0, 0, "Ein"⟩]) =
      [PdRow.mk 0 0 (PdCell.str "Ein")] :=
  (claim_C4 (fun _ => false) (fun _ _ => rfl) [⟨0, 0, "Ein"⟩]).2
    (by decide) (by decide) (by decide)

/-- Claim C5, counterexample: a zero-length segment `[3, 3)` whose start
equals the token's offset does fire rule 1 — the token-tag loop yields
`B-X`, not `O` — and the export then aborts (the `Annotation_ID` pass
finds no covering row), whereas with the segment absent the token is
exported as an `O` row; so the zero-length segment does contribute a tag
and the result is not the same as if it were absent. -/
theorem claim_C5_counterexample :
    tagForToken (explode_ac_rows [⟨"x/a_1", "X", [⟨3, 3⟩]⟩]) 0 3 "tt" = "B-X" ∧
    ("B-X" : String) ≠ "O" ∧
    create_annotated_token_tsv_allsegs [⟨"x/a_1", "X", [⟨3, 3⟩]⟩] none
      [⟨0, 3, "tt"⟩] = none ∧
    create_annotated_token_tsv_allsegs [] none [⟨0, 3, "tt"⟩] =
      some [⟨0, 3, "tt", "O", "none", 0⟩] := by
  refine ⟨by decide, by decide, by decide, by decide⟩

/-- Claim C5 as amended: a zero-length segment can never match a token
via rule 2 (the strict inequalities are unsatisfiable), but a
non-line-break token whose offset equals the start of a segment — also a
zero-length one — receives a `B-` tag via rule 1; if no segment covers
the token, the subsequent `Annotation_ID` pass then fails (IndexError)
instead of tagging the token as if the segment were absent. -/
theorem claim_C5 (acRows : List AnnRow) (anns : List Ann)
    (tb : Option (Int × Int)) (t : TokRow)
    (hlb : containsLB t.token = false)
    (s : AnnRow) (hs : s ∈ acRows) (_hzero : s.start_point = s.end_point)
    (hstart : s.start_point = t.textPointer + off_of tb)
    (hnocover : ∀ s' ∈ acRows, ¬(s'.start_point - off_of tb ≤ t.textPointer ∧
        s'.end_point - off_of tb > t.textPointer)) :
    (∀ s' ∈ acRows, s'.start_point = s'.end_point →
        ¬(s'.start_point < t.textPointer + off_of tb ∧
          t.textPointer + off_of tb < s'.end_point)) ∧
    (∃ s' ∈ acRows, s'.start_point = t.textPointer + off_of tb ∧
        tagForToken acRows (off_of tb) t.textPointer t.token = "B-" ++ s'.tag) ∧
    create_annotated_token_tsv acRows anns tb [t] = none := by
  have htagB : ∃ s' ∈ acRows, s'.start_point = t.textPointer + off_of tb ∧
      tagForToken acRows (off_of tb) t.textPointer t.token = "B-" ++ s'.tag := by
    rcases tagFor_cases acRows (off_of tb) t.textPointer t.token hlb with hB | hI | hO
    · exact hB
    · exact absurd hstart (hI.1 s hs)
    · exact absurd hstart (hO.1 s hs)
  obtain ⟨s', hs', hseq, htag⟩ := htagB
  refine ⟨?_, ⟨s', hs', hseq, htag⟩, ?_⟩
  · intro s'' _ hz hcon
    omega
  · simp only [create_annotated_token_tsv]
    have hstep : annStep acRows anns (off_of tb) ([], [])
        (t, tagForToken acRows (off_of tb) t.textPointer t.token) = none := by
      apply annStep_fail
      · show (tagForToken acRows (off_of tb) t.textPointer t.token == "O"
            || containsLB t.token) = false
        rw [htag, hlb, b_tag_beq_O_false]
        rfl
      · unfold annIdForToken
        have hnil : acRows.filter (fun r =>
            decide (r.start_point - off_of tb ≤ t.textPointer) &&
            decide (r.end_point - off_of tb > t.textPointer)) = [] := by
          apply List.filter_eq_nil_iff.mpr
          intro s'' hs''
          simp only [Bool.and_eq_true, decide_eq_true_eq, not_and]
          intro h1 h2
          exact hnocover s'' hs'' ⟨h1, h2⟩
        rw [hnil]
    have hloop : annLoop acRows anns (off_of tb)
        [(t, tagForToken acRows (off_of tb) t.textPointer t.token)] ([], []) =
        none := by
      unfold annLoop
      rw [hstep]
    simp only [List.map_cons, List.map_nil, List.zip_cons_cons, List.zip_nil_right]
    rw [hloop]

theorem claim_C5_witness :
    create_annotated_token_tsv (explode_ac_rows [⟨"x/a_1", "X", [⟨3, 3⟩]⟩])
      [⟨"x/a_1", "X", [⟨3, 3⟩]⟩] none [⟨0, 3, "tt"⟩] = none :=
  (claim_C5 (explode_ac_rows [⟨"x/a_1", "X", [⟨3, 3⟩]⟩])
    [⟨"x/a_1", "X", [⟨3, 3⟩]⟩] none ⟨0, 3, "tt"⟩ (by decide)
    ⟨3, 3, "X", 0⟩ (by decide) (by decide) (by decide) (by decide)).2.2

/-- Claim C6: a token containing the line-break marker (the escaped
two-character sequence backslash + n) is always emitted as
`O` / `'none'` / `0`, regardless of the segments, and processing such a
token leaves every previously accumulated multi-token count unchanged. -/
theorem claim_C6 (acRows : List AnnRow) (anns : List Ann)
    (tb : Option (Int × Int)) (inRows : List TokRow) (out : List OutRow)
    (hids : ∀ x ∈ anns, ann_id_of x ≠ "none")
    (hp : create_annotated_token_tsv acRows anns tb inRows = some out) :
    (List.Forall₂ (fun (t : TokRow) (r : OutRow) =>
        containsLB t.token = true →
        r.tag = "O" ∧ r.annId = "none" ∧ r.mtaCount = 0) inRows out) ∧
    (∀ (acc : List String × List Nat) (p : TokRow × String),
        containsLB p.1.token = true →
        annStep acRows anns (off_of tb) acc p =
          some (acc.1 ++ ["none"], acc.2 ++ [0])) := by
  have hchar := pipeline_char acRows anns tb inRows out hp
  have hmta := pipeline_mta acRows anns tb inRows out hids hp
  constructor
  · rw [List.forall₂_iff_zip] at hchar ⊢
    refine ⟨hchar.1, ?_⟩
    intro t r hmem hlb
    obtain ⟨_, _, _, htag, hnone, _⟩ := hchar.2 hmem
    have hr : r ∈ out := (List.of_mem_zip hmem).2
    have htagO : r.tag = "O" := by
      rw [htag]
      exact tagFor_of_lb acRows (off_of tb) t.textPointer t.token hlb
    have hcond : (tagForToken acRows (off_of tb) t.textPointer t.token == "O"
        || containsLB t.token) = true := by
      rw [hlb, Bool.or_true]
    have hidn := hnone hcond
    exact ⟨htagO, hidn, (hmta r hr).1 hidn⟩
  · intro acc p hlb
    apply annStep_O
    rw [hlb, Bool.or_true]

theorem claim_C6_witness :
    ((OutRow.mk 0 2 "\\n" "O" "none" 0).tag = "O" ∧
     (OutRow.mk 0 2 "\\n" "O" "none" 0).annId = "none" ∧
     (OutRow.mk 0 2 "\\n" "O" "none" 0).mtaCount = 0) ∧
    annStep (explode_ac_rows [⟨"x/a_1", "X", [⟨0, 9⟩]⟩])
      [⟨"x/a_1", "X", [⟨0, 9⟩]⟩] (off_of none) (["1"], [3])
      (⟨5, 4, "\\n"⟩, "O") = some (["1"] ++ ["none"], [3] ++ [0]) := by
  have h := claim_C6 (explode_ac_rows [⟨"x/a_1", "X", [⟨0, 9⟩]⟩])
    [⟨"x/a_1", "X", [⟨0, 9⟩]⟩] none [⟨0, 2, "\\n"⟩]
    [⟨0, 2, "\\n", "O", "none", 0⟩] (by decide) (by decide)
  constructor
  · have h1 := h.1
    rw [List.forall₂_iff_zip] at h1
    exact h1.2
      (show ((⟨0, 2, "\\n"⟩ : TokRow),
          (⟨0, 2, "\\n", "O", "none", 0⟩ : OutRow)) ∈
        [(⟨0, 2, "\\n"⟩ : TokRow)].zip
          [(⟨0, 2, "\\n", "O", "none", 0⟩ : OutRow)] from by decide)
      (by decide)
  · exact h.2 (["1"], [3]) (⟨5, 4, "\\n"⟩, "O") (by decide)

/-- Claim C8: the written TEI output is the pretty-printed serialization
with the fixed ordered correction table applied — the space before
period, comma, colon, semicolon, question mark, exclamation mark and the
closing paragraph tag, the space after `»` and the space before `«` are
removed, as literal find/replace rules applied in table order, each to
every occurrence of the whole rendered string. -/
theorem claim_C8 (tree_string : String) :
    tei_output_of_rendered tree_string =
      ((((((((tree_string.replace " ." ".").replace " ," ",").replace
        " :" ":").replace " ;" ";").replace "» " "»").replace " «" "«").replace
        " ?" "?").replace " !" "!").replace " </p>" "</p>" := rfl

/-- Claim C9, counterexample: the source text window is a raw Python
slice, so the negative start offset `-2` selects from position
`length - 2` and yields `"l"` for `"hello"[-2:4]`, while clamping both
bounds into `[0, length]` as claimed would yield `"hell"` — a negative
start does not behave like 0. -/
theorem claim_C9_counterexample :
    text_borders_cut "hello".data (some (-2, 4)) = "l".data ∧
    clampSlice_spec "hello".data (-2) 4 = "hell".data ∧
    "l".data ≠ "hell".data := by
  refine ⟨by decide, by decide, by decide⟩

/-- Claim C9 as amended: for a window with non-negative bounds the
processed sub-range does equal the one obtained by clamping both bounds
into `[0, length]`; a negative bound, however, is interpreted relative
to the end of the text (Python slice semantics), not clamped to 0. -/
theorem claim_C9 (text : List Char) (a b : Int) (ha : 0 ≤ a) (hb : 0 ≤ b) :
    text_borders_cut text (some (a, b)) = clampSlice_spec text a b := by
  show pySlice text a b = clampSlice_spec text a b
  unfold pySlice clampSlice_spec
  rw [normIdx_of_nonneg _ _ ha, normIdx_of_nonneg _ _ hb]

theorem claim_C9_witness :
    text_borders_cut "hello".data (some (2, 99)) =
      clampSlice_spec "hello".data 2 99 :=
  claim_C9 "hello".data 2 99 (by decide) (by decide)

/-! ## Lemmas on the TEI body construction (claims C7, C10) -/

theorem modifyLastM_eq {α : Type} (f : α → Option α) :
    ∀ (ps : List α) (p : α),
    modifyLastM f (ps ++ [p]) = (f p).map (fun x => ps ++ [x]) := by
  intro ps
  induction ps with
  | nil =>
    intro p
    simp [modifyLastM]
  | cons a ps' ih =>
    intro p
    rw [List.cons_append]
    cases hc : ps' ++ [p] with
    | nil => exact absurd hc (by simp)
    | cons c cs =>
      have step : modifyLastM f (a :: c :: cs) =
          (modifyLastM f (c :: cs)).map (fun l => a :: l) := by
        simp [modifyLastM]
      rw [step, ← hc, ih p, Option.map_map]
      rfl

theorem mutateLastSib_some (f : SpanEl → SpanEl) (st : TeiState)
    (ps : List Para) (p : Para) (hps : st.paras = ps ++ [p])
    (hsp : p.spans ≠ []) :
    ∃ q : Para, mutateLastSib true f st = some { st with paras := ps ++ [q] } ∧
      q.spans ≠ [] := by
  rcases List.eq_nil_or_concat p.spans with hnil | ⟨sps, sl, hspl⟩
  · exact absurd hnil hsp
  · rw [List.concat_eq_append] at hspl
    refine ⟨{ p with spans := sps ++ [f sl] }, ?_, by simp⟩
    have hml : modifyLast f p.spans = some (sps ++ [f sl]) := by
      unfold modifyLast
      rw [hspl, modifyLastM_eq]
      rfl
    unfold mutateLastSib
    rw [if_pos rfl, hps, modifyLastM_eq, hml]
    rfl

theorem appendSpan_eq (sp : SpanEl) (st : TeiState) (ps : List Para) (p : Para)
    (hps : st.paras = ps ++ [p]) :
    appendSpan true sp st =
      some { st with paras := ps ++ [{ p with spans := p.spans ++ [sp] }],
                     lastSib := true } := by
  unfold appendSpan
  rw [if_pos rfl, hps, modifyLastM_eq]
  rfl

theorem paragraph_recognition_eltec (tok : String) :
    paragraph_recognition tok "eltec-deu" =
      some (containsLB tok && decide (tok.length < 10)) := by
  unfold paragraph_recognition
  rw [if_pos rfl]

theorem teiStep_eltec (idx : Nat) (r : OutRow) (nt : Option String)
    (st : TeiState) :
    teiStep true "eltec-deu" idx r nt st =
      teiContent true r nt
        (if (idx == 0) || (containsLB r.token && decide (r.token.length < 10))
         then stOpenPara idx st else st) := by
  unfold teiStep
  rw [paragraph_recognition_eltec]
  cases hidx : (idx == 0) with
  | true => simp [hidx]
  | false => simp [hidx]

theorem teiContent_lb (r : OutRow) (nt : Option String) (st : TeiState)
    (hlb : containsLB r.token = true) :
    teiContent true r nt st = some st := by
  unfold teiContent
  rw [if_pos hlb]

theorem teiContent_B (r : OutRow) (nt : Option String) (st : TeiState)
    (ps : List Para) (p : Para)
    (hlb : containsLB r.token = false) (htO : (r.tag != "O") = true)
    (hB : strStartsWith r.tag "B-" = true) (hps : st.paras = ps ++ [p]) :
    ∃ q : Para, teiContent true r nt st =
      some { st with paras := ps ++ [q], lastSib := true } ∧ q.spans ≠ [] := by
  have hps1 : ({ st with paras := ps ++ [{ p with spans := p.spans ++
      [⟨r.tag.drop 2, r.annId, none, none⟩] }], lastSib := true } : TeiState).paras
      = ps ++ [{ p with spans := p.spans ++
        [⟨r.tag.drop 2, r.annId, none, none⟩] }] := rfl
  have hsp1 : ({ p with spans := p.spans ++
      [⟨r.tag.drop 2, r.annId, none, none⟩] } : Para).spans ≠ [] := by simp
  cases hni : nextIsI nt with
  | true =>
    rcases mutateLastSib_some
      (fun s => { s with text := some (appendOpt s.text (r.token ++ " ")) })
      _ _ _ hps1 hsp1 with ⟨q, hmut, hq⟩
    refine ⟨q, ?_, hq⟩
    unfold teiContent
    rw [if_neg (by simp [hlb]), if_pos htO, if_pos hB,
      appendSpan_eq _ st ps p hps]
    show (if nextIsI nt = true
        then mutateLastSib true
          (fun s => { s with text := some (appendOpt s.text (r.token ++ " ")) })
          { st with paras := ps ++ [{ p with spans := p.spans ++
              [⟨r.tag.drop 2, r.annId, none, none⟩] }], lastSib := true }
        else mutateLastSib true
          (fun s => { s with text := some (appendOpt s.text r.token),
                             tail := some (appendOpt s.tail " ") })
          { st with paras := ps ++ [{ p with spans := p.spans ++
              [⟨r.tag.drop 2, r.annId, none, none⟩] }], lastSib := true }) = _
    rw [if_pos hni, hmut]
  | false =>
    rcases mutateLastSib_some
      (fun s => { s with text := some (appendOpt s.text r.token),
                         tail := some (appendOpt s.tail " ") })
      _ _ _ hps1 hsp1 with ⟨q, hmut, hq⟩
    refine ⟨q, ?_, hq⟩
    unfold teiContent
    rw [if_neg (by simp [hlb]), if_pos htO, if_pos hB,
      appendSpan_eq _ st ps p hps]
    show (if nextIsI nt = true
        then mutateLastSib true
          (fun s => { s with text := some (appendOpt s.text (r.token ++ " ")) })
          { st with paras := ps ++ [{ p with spans := p.spans ++
              [⟨r.tag.drop 2, r.annId, none, none⟩] }], lastSib := true }
        else mutateLastSib true
          (fun s => { s with text := some (appendOpt s.text r.token),
                             tail := some (appendOpt s.tail " ") })
          { st with paras := ps ++ [{ p with spans := p.spans ++
              [⟨r.tag.drop 2, r.annId, none, none⟩] }], lastSib := true }) = _
    rw [if_neg (by simp [hni]), hmut]

theorem teiContent_I (r : OutRow) (nt : Option String) (st : TeiState)
    (ps : List Para) (p : Para)
    (hlb : containsLB r.token = false) (htO : (r.tag != "O") = true)
    (hB : strStartsWith r.tag "B-" = false) (hls : st.lastSib = true)
    (hps : st.paras = ps ++ [p]) (hsp : p.spans ≠ []) :
    ∃ q : Para, teiContent true r nt st = some { st with paras := ps ++ [q] } ∧
      q.spans ≠ [] := by
  unfold teiContent
  rw [if_neg (by simp [hlb]), if_pos htO, if_neg (by simp [hB]), if_pos hls]
  cases hni : nextIsI nt with
  | true =>
    rw [if_pos rfl]
    rcases mutateLastSib_some _ st _ _ hps hsp with ⟨q, hmut, hq⟩
    exact ⟨q, by rw [hmut], hq⟩
  | false =>
    rw [if_neg (by simp)]
    rcases mutateLastSib_some _ st _ _ hps hsp with ⟨q, hmut, hq⟩
    exact ⟨q, by rw [hmut], hq⟩

theorem teiContent_I_fail (r : OutRow) (nt : Option String) (st : TeiState)
    (hlb : containsLB r.token = false) (htO : (r.tag != "O") = true)
    (hB : strStartsWith r.tag "B-" = false) (hls : st.lastSib = false) :
    teiContent true r nt st = none := by
  unfold teiContent
  rw [if_neg (by simp [hlb]), if_pos htO, if_neg (by simp [hB]),
    if_neg (by simp [hls])]

theorem teiContent_O_sib (r : OutRow) (nt : Option String) (st : TeiState)
    (ps : List Para) (p : Para)
    (hlb : containsLB r.token = false) (htO : (r.tag != "O") = false)
    (hls : st.lastSib = true) (hps : st.paras = ps ++ [p]) (hsp : p.spans ≠ []) :
    ∃ q : Para, teiContent true r nt st = some { st with paras := ps ++ [q] } ∧
      q.spans ≠ [] := by
  unfold teiContent
  rw [if_neg (by simp [hlb]), if_neg (by simp [htO]), if_pos hls]
  rcases mutateLastSib_some _ st _ _ hps hsp with ⟨q, hmut, hq⟩
  exact ⟨q, by rw [hmut], hq⟩

theorem teiContent_O_nosib (r : OutRow) (nt : Option String) (st : TeiState)
    (ps : List Para) (p : Para)
    (hlb : containsLB r.token = false) (htO : (r.tag != "O") = false)
    (hls : st.lastSib = false) (hps : st.paras = ps ++ [p]) :
    teiContent true r nt st = some { st with paras := ps ++
      [{ p with ptext := some (appendOpt p.ptext (r.token ++ " ")) }] } := by
  unfold teiContent
  rw [if_neg (by simp [hlb]), if_neg (by simp [htO]), if_neg (by simp [hls]),
    if_pos rfl, hps, modifyLastM_eq]
  rfl

theorem spansOk_cons (opn : Bool) (idx : Nat) (r : OutRow) (rest : List OutRow) :
    spansOk opn idx (r :: rest) =
      (stepOkB r (resetAtBoundary opn idx r.token) &&
       spansOk (stepSib r (resetAtBoundary opn idx r.token)) (idx + 1) rest) := by
  cases hlb : containsLB r.token with
  | true => simp [spansOk, stepOkB, stepSib, hlb]
  | false =>
    cases htO : (r.tag != "O") with
    | true =>
      cases hB : strStartsWith r.tag "B-" with
      | true => simp [spansOk, stepOkB, stepSib, hlb, htO, hB]
      | false => simp [spansOk, stepOkB, stepSib, hlb, htO, hB]
    | false => simp [spansOk, stepOkB, stepSib, hlb, htO]

theorem teiContent_after (r : OutRow) (nt : Option String) (stP : TeiState)
    (ps : List Para) (p : Para) (hps : stP.paras = ps ++ [p])
    (hsib : stP.lastSib = true → p.spans ≠ []) :
    (teiContent true r nt stP = none ∧ stepOkB r stP.lastSib = false) ∨
    (∃ st', teiContent true r nt stP = some st' ∧
      stepOkB r stP.lastSib = true ∧
      st'.lastSib = stepSib r stP.lastSib ∧
      st'.pStarts = stP.pStarts ∧ TeiInvP st') := by
  cases hlb : containsLB r.token with
  | true =>
    right
    refine ⟨stP, teiContent_lb r nt stP hlb, by simp [stepOkB, hlb],
      by simp [stepSib, hlb], rfl, ?_⟩
    exact ⟨by rw [hps]; simp, fun h => ⟨ps, p, hps, hsib h⟩⟩
  | false =>
    cases htO : (r.tag != "O") with
    | true =>
      cases hB : strStartsWith r.tag "B-" with
      | true =>
        right
        rcases teiContent_B r nt stP ps p hlb htO hB hps with ⟨q, hc, hq⟩
        refine ⟨_, hc, by simp [stepOkB, hlb, htO, hB],
          by simp [stepSib, hlb, htO, hB], rfl, ?_⟩
        exact ⟨by simp, fun _ => ⟨ps, q, rfl, hq⟩⟩
      | false =>
        cases hls : stP.lastSib with
        | true =>
          right
          rcases teiContent_I r nt stP ps p hlb htO hB hls hps (hsib hls)
            with ⟨q, hc, hq⟩
          refine ⟨_, hc, by simp [stepOkB, hlb, htO, hB, hls], ?_, rfl, ?_⟩
          · simp [stepSib, hlb, htO, hB, hls]
          · exact ⟨by simp, fun h => ⟨ps, q, rfl, hq⟩⟩
        | false =>
          left
          exact ⟨teiContent_I_fail r nt stP hlb htO hB hls,
            by simp [stepOkB, hlb, htO, hB, hls]⟩
    | false =>
      cases hls : stP.lastSib with
      | true =>
        right
        rcases teiContent_O_sib r nt stP ps p hlb htO hls hps (hsib hls)
          with ⟨q, hc, hq⟩
        refine ⟨_, hc, by simp [stepOkB, hlb, htO], ?_, rfl, ?_⟩
        · simp [stepSib, hlb, htO, hls]
        · exact ⟨by simp, fun h => ⟨ps, q, rfl, hq⟩⟩
      | false =>
        right
        refine ⟨_, teiContent_O_nosib r nt stP ps p hlb htO hls hps,
          by simp [stepOkB, hlb, htO], ?_, rfl, ?_⟩
        · simp [stepSib, hlb, htO, hls]
        · refine ⟨by simp, fun h => ?_⟩
          rw [show ({ stP with paras := ps ++
              [{ p with ptext := some (appendOpt p.ptext (r.token ++ " ")) }]
              } : TeiState).lastSib = stP.lastSib from rfl, hls] at h
          cases h

theorem teiRun_cons_core (r : OutRow) (rest : List OutRow) (idx : Nat)
    (st stP : TeiState) (pfx : List Nat)
    (hrun : teiRun true "eltec-deu" (r :: rest) idx st =
      match teiContent true r ((rest.head?).map (fun x => x.tag)) stP with
      | none => none
      | some st' => teiRun true "eltec-deu" rest (idx + 1) st')
    (hshape : ∃ ps p, stP.paras = ps ++ [p] ∧
      (stP.lastSib = true → p.spans ≠ []))
    (hreset : stP.lastSib = resetAtBoundary st.lastSib idx r.token)
    (hpst : stP.pStarts = st.pStarts ++ pfx)
    (hfilter : ((List.enumFrom idx (r :: rest)).filter (fun q =>
        (q.1 == 0) || (containsLB q.2.token &&
          decide (q.2.token.length < 10)))).map Prod.fst
      = pfx ++ ((List.enumFrom (idx + 1) rest).filter (fun q =>
        (q.1 == 0) || (containsLB q.2.token &&
          decide (q.2.token.length < 10)))).map Prod.fst)
    (ih : ∀ (idx : Nat) (st : TeiState), (idx = 0 ∨ TeiInvP st) →
      ((teiRun true "eltec-deu" rest idx st).isSome =
        spansOk st.lastSib idx rest) ∧
      (∀ fin, teiRun true "eltec-deu" rest idx st = some fin →
        fin.pStarts = st.pStarts ++
          ((List.enumFrom idx rest).filter (fun q =>
            (q.1 == 0) || (containsLB q.2.token &&
              decide (q.2.token.length < 10)))).map Prod.fst)) :
    ((teiRun true "eltec-deu" (r :: rest) idx st).isSome =
      spansOk st.lastSib idx (r :: rest)) ∧
    (∀ fin, teiRun true "eltec-deu" (r :: rest) idx st = some fin →
      fin.pStarts = st.pStarts ++
        ((List.enumFrom idx (r :: rest)).filter (fun q =>
          (q.1 == 0) || (containsLB q.2.token &&
            decide (q.2.token.length < 10)))).map Prod.fst) := by
  obtain ⟨ps, p, hps, hsib⟩ := hshape
  rcases teiContent_after r ((rest.head?).map (fun x => x.tag)) stP ps p hps hsib
    with ⟨hc, hok⟩ | ⟨st', hc, hok, hls', hpst', hInv'⟩
  · constructor
    · rw [hrun, hc, spansOk_cons, ← hreset, hok]
      rfl
    · intro fin h
      rw [hrun, hc] at h
      cases h
  · have hih := ih (idx + 1) st' (Or.inr hInv')
    constructor
    · rw [hrun, hc, spansOk_cons, ← hreset, hok, Bool.true_and, ← hls']
      exact hih.1
    · intro fin h
      rw [hrun, hc] at h
      have h2 := hih.2 fin h
      rw [h2, hpst', hpst, hfilter, List.append_assoc]

theorem teiRun_main :
    ∀ (rows : List OutRow) (idx : Nat) (st : TeiState),
    (idx = 0 ∨ TeiInvP st) →
    ((teiRun true "eltec-deu" rows idx st).isSome =
      spansOk st.lastSib idx rows) ∧
    (∀ fin, teiRun true "eltec-deu" rows idx st = some fin →
      fin.pStarts = st.pStarts ++
        ((List.enumFrom idx rows).filter (fun q =>
          (q.1 == 0) || (containsLB q.2.token &&
            decide (q.2.token.length < 10)))).map Prod.fst) := by
  intro rows
  induction rows with
  | nil =>
    intro idx st _
    constructor
    · rfl
    · intro fin h
      injection h with h
      subst h
      simp
  | cons r rest ih =>
    intro idx st hpre
    cases hb : (idx == 0) || (containsLB r.token && decide (r.token.length < 10))
      with
    | true =>
      refine teiRun_cons_core r rest idx st (stOpenPara idx st) [idx] ?_ ?_ ?_ ?_
        ?_ ih
      · simp only [teiRun]
        rw [teiStep_eltec, hb, if_pos rfl]
      · exact ⟨st.paras, ⟨none, []⟩, rfl, fun h => by cases h⟩
      · show false = resetAtBoundary st.lastSib idx r.token
        unfold resetAtBoundary
        rw [hb, if_pos rfl]
      · rfl
      · simp [List.filter_cons, hb]
    | false =>
      have hidx : ¬(idx = 0) := by
        intro h
        subst h
        simp at hb
      have hInv : TeiInvP st := hpre.resolve_left hidx
      have hshape : ∃ ps p, st.paras = ps ++ [p] ∧
          (st.lastSib = true → p.spans ≠ []) := by
        cases hls : st.lastSib with
        | true =>
          rcases hInv.2 hls with ⟨ps, p, h1, h2⟩
          exact ⟨ps, p, h1, fun _ => h2⟩
        | false =>
          rcases List.eq_nil_or_concat st.paras with hnil | ⟨ps, p, h1⟩
          · exact absurd hnil hInv.1
          · rw [List.concat_eq_append] at h1
            exact ⟨ps, p, h1, fun h => absurd h (by decide)⟩
      refine teiRun_cons_core r rest idx st st [] ?_ hshape ?_ ?_ ?_ ih
      · simp only [teiRun]
        rw [teiStep_eltec, hb, if_neg (by simp)]
      · show st.lastSib = resetAtBoundary st.lastSib idx r.token
        unfold resetAtBoundary
        rw [hb, if_neg (by simp)]
      · simp
      · simp [List.filter_cons, hb]

/-- Claim C7: with `insert_paragraphs` and text class `'eltec-deu'`, the
body-building loop opens a new paragraph element exactly at the first
row of the token table and at every row whose token text contains the
line-break marker and is shorter than 10 characters; a line-break token
of length 10 or more does not start a paragraph. -/
theorem claim_C7 (rows : List OutRow) (fin : TeiState)
    (h : create_annotated_tei true "eltec-deu" rows = some fin) :
    fin.pStarts = ((rows.enum).filter (fun q =>
      (q.1 == 0) || (containsLB q.2.token &&
        decide (q.2.token.length < 10)))).map Prod.fst := by
  have h2 := (teiRun_main rows 0 ⟨[], none, [], false, []⟩ (Or.inl rfl)).2 fin h
  rw [h2]
  rfl

theorem claim_C7_witness :
    (⟨[⟨some "Ein ", []⟩, ⟨none, []⟩], none, [], false, [0, 1]⟩ :
        TeiState).pStarts =
      (([(⟨0, 0, "Ein", "O", "none", 0⟩ : OutRow),
         ⟨1, 2, "\\n", "O", "none", 0⟩,
         ⟨2, 3, "0123456789\\n", "O", "none", 0⟩].enum).filter (fun q =>
        (q.1 == 0) || (containsLB q.2.token &&
          decide (q.2.token.length < 10)))).map Prod.fst :=
  claim_C7
    [⟨0, 0, "Ein", "O", "none", 0⟩, ⟨1, 2, "\\n", "O", "none", 0⟩,
     ⟨2, 3, "0123456789\\n", "O", "none", 0⟩]
    ⟨[⟨some "Ein ", []⟩, ⟨none, []⟩], none, [], false, [0, 1]⟩ (by decide)

/-- Claim C10: the body-building traversal of `create_annotated_tei`
(with paragraphs, text class `'eltec-deu'`) succeeds exactly when, since
the most recent paragraph boundary (where the open-span accumulator is
reset), every `I`-style row is preceded by some `B-` row — so under that
precondition it never accesses a missing current-span element, and an
`I`-tagged token with no open span (for example the first content token
of a paragraph) makes it fail with an error instead of emitting a
document. -/
theorem claim_C10 (rows : List OutRow) :
    (create_annotated_tei true "eltec-deu" rows).isSome =
      spansOk false 0 rows :=
  (teiRun_main rows 0 ⟨[], none, [], false, []⟩ (Or.inl rfl)).1

end GitmaCanspin
